import Mathlib

/-!
Verification of the derivative-evaluation and memoization engine of
`scipy/optimize/_differentiable_functions.py`.

The engines (`ScalarFunction`, `VectorFunction`, `LinearVectorFunction`) are
shallowly embedded as explicit state machines.  The embedding is parametric in

  * `P`  — the point type (the numpy array `x`; `np.array_equal` becomes
    decidable equality on `P`),
  * `V`  — the scalar function-value type (a linear order, needed for the
    best-point tracker `fx < self._lowest_f`),
  * `G`  — the gradient type,
  * `Hm` — the Hessian-matrix type,

and external collaborators that the source imports from other modules
(`approx_derivative` from `_numdiff`, vector subtraction on numpy arrays) are
supplied as fields of a configuration record: they are outside the repository
core and the engine treats them as opaque functions.  The user callable is a
pure function `P → V`; the memoization, cache-invalidation and counter logic —
the subject of the claims — is translated line by line from the source.

Counter fields correspond to the source as follows (scalar engine):
`nfev` is `ScalarFunction._nfev`, `grad_ngev`/`grad_nfev` are
`_ScalarGradWrapper.ngev`/`.nfev`, `hess_nhev`/`hess_ngev` are
`_ScalarHessWrapper.nhev`/`.ngev` (for a `HessianUpdateStrategy` Hessian the
source installs a `_FakeCounter` with both counts pinned to zero, which is the
state these fields keep in that configuration).  The exported properties are
`nfev = _nfev + _wrapped_grad.nfev`, `ngev = _wrapped_grad.ngev`,
`nhev = _wrapped_hess.nhev`.
-/

/-- The finite-difference method names `FD_METHODS = ('2-point', '3-point', 'cs')`. -/
inductive FDMethod : Type
  | twoPoint
  | threePoint
  | cs
deriving DecidableEq, Inhabited

/-- Gradient strategy of `ScalarFunction`: a user callable or a
finite-difference keyword (`grad` must be one of these, `__init__` lines
212-215). -/
inductive GradStrategy (P G : Type) : Type
  | analytic (grad : P → G)
  | fd (method : FDMethod)

/-- `grad in FD_METHODS`. -/
def GradStrategy.isFD {P G : Type} : GradStrategy P G → Bool
  | .analytic _ => false
  | .fd _ => true

/-- Hessian strategy of `ScalarFunction`: user callable, finite-difference
keyword, or a `HessianUpdateStrategy` quasi-Newton object. -/
inductive HessStrategy (P Hm : Type) : Type
  | analytic (hess : P → Hm)
  | fd (method : FDMethod)
  | quasiNewton

/-- `hess in FD_METHODS`. -/
def HessStrategy.isFD {P Hm : Type} : HessStrategy P Hm → Bool
  | .fd _ => true
  | _ => false

/-- `isinstance(hess, HessianUpdateStrategy)`. -/
def HessStrategy.isQN {P Hm : Type} : HessStrategy P Hm → Bool
  | .quasiNewton => true
  | _ => false

/-- The value stored in the attribute `self.H`.  For an analytic or
finite-difference Hessian the source stores a matrix (or linear operator);
for a quasi-Newton strategy it stores the `HessianUpdateStrategy` object
itself, which is advanced by `update(delta_x, delta_g)` calls.  We record the
quasi-Newton object as the ordered list of `update` calls it has received
since `initialize` (the numerical matrix it holds is internal to
`_hessian_update_strategy.py`, outside this module). -/
inductive HessVal (P G Hm : Type) : Type
  | matrix (H : Hm)
  | updateStrategy (updates : List (P × G))
deriving DecidableEq, Inhabited

/-- Configuration of a `ScalarFunction` engine: the wrapped user callable,
the gradient and Hessian strategies, and the external collaborators.
`fdGrad m x f0` is `approx_derivative(fun, x, f0=f0, method=m, ...)` from
`_numdiff`: it returns the estimated gradient together with the number of
function evaluations it consumed (`dct['nfev']`).  `fdHess m x g0` is the
corresponding call differentiating the gradient wrapper
(`as_linear_operator=True`), returning the Hessian operator and the consumed
count.  `psub`/`gsub` are numpy vector subtraction on points/gradients. -/
structure ScalarConf (P V G Hm : Type) : Type where
  fn : P → V
  grad : GradStrategy P G
  hess : HessStrategy P Hm
  fdGrad : FDMethod → P → V → G × Nat
  fdHess : FDMethod → P → G → Hm × Nat
  psub : P → P → P
  gsub : G → G → G

/-- The mutable state of a `ScalarFunction` instance.  `lowest_f = none`
models the initial `self._lowest_f = np.inf` (and `lowest_x = none` the
initial `self._lowest_x = None`). -/
structure ScalarState (P V G Hm : Type) : Type where
  x : P
  f : V
  g : G
  H : HessVal P G Hm
  f_updated : Bool
  g_updated : Bool
  H_updated : Bool
  nfev : Nat
  grad_ngev : Nat
  grad_nfev : Nat
  hess_nhev : Nat
  hess_ngev : Nat
  x_prev : Option P
  g_prev : Option G
  lowest_x : Option P
  lowest_f : Option V
deriving DecidableEq, Inhabited

variable {P V G Hm : Type}

/-- `fx < self._lowest_f`, where `none` stands for the initial `np.inf`. -/
def ltLowest [LinearOrder V] (fx : V) : Option V → Bool
  | none => true
  | some l => decide (fx < l)

namespace ScalarState

/-- `ScalarFunction._update_fun` (lines 351-360): if the function cache is
stale, evaluate the user callable at the current point, count it in `_nfev`,
update the best-point tracker, store the value and mark the cache fresh. -/
def update_fun [LinearOrder V] (c : ScalarConf P V G Hm) (s : ScalarState P V G Hm) :
    ScalarState P V G Hm :=
  if s.f_updated then s
  else
    if ltLowest (c.fn s.x) s.lowest_f then
      { s with nfev := s.nfev + 1, lowest_x := some s.x, lowest_f := some (c.fn s.x),
               f := c.fn s.x, f_updated := true }
    else
      { s with nfev := s.nfev + 1, f := c.fn s.x, f_updated := true }

/-- `ScalarFunction._update_grad` (lines 362-367): if the gradient cache is
stale, first refresh the function cache when the gradient strategy is
finite-difference (the base value `f0` of the differencing), then invoke the
gradient wrapper `_ScalarGradWrapper.__call__`: a user callable counts one
`ngev`; a finite-difference estimate consumes `dct['nfev']` function
evaluations and also counts one `ngev`. -/
def update_grad [LinearOrder V] (c : ScalarConf P V G Hm) (s : ScalarState P V G Hm) :
    ScalarState P V G Hm :=
  if s.g_updated then s
  else
    match c.grad with
    | GradStrategy.analytic gradf =>
        { s with g := gradf s.x, g_updated := true, grad_ngev := s.grad_ngev + 1 }
    | GradStrategy.fd m =>
        let s1 := s.update_fun c
        let p := c.fdGrad m s1.x s1.f
        { s1 with g := p.1, g_updated := true,
                  grad_ngev := s1.grad_ngev + 1, grad_nfev := s1.grad_nfev + p.2 }

/-- `ScalarFunction._update_hess` (lines 369-380): if the Hessian cache is
stale, dispatch on the Hessian strategy.  Finite difference: refresh the
gradient and difference it (`_ScalarHessWrapper._fd_hess`, which adds the
consumed count to the hess wrapper's `ngev`).  Quasi-Newton: refresh the
gradient, then `self.H.update(self.x - self.x_prev, self.g - self.g_prev)`;
the fallback arm is unreachable from the engine's methods (this branch is
only entered from `_update_x`, which has just set `x_prev`/`g_prev` and left
`H` the strategy object; on `None` the source would raise a `TypeError`).
Callable: evaluate it and count one `nhev`. -/
def update_hess [LinearOrder V] (c : ScalarConf P V G Hm) (s : ScalarState P V G Hm) :
    ScalarState P V G Hm :=
  if s.H_updated then s
  else
    match c.hess with
    | HessStrategy.fd m =>
        let s1 := s.update_grad c
        let p := c.fdHess m s1.x s1.g
        { s1 with H := HessVal.matrix p.1, hess_ngev := s1.hess_ngev + p.2,
                  H_updated := true }
    | HessStrategy.quasiNewton =>
        let s1 := s.update_grad c
        match s1.H, s1.x_prev, s1.g_prev with
        | HessVal.updateStrategy ups, some xp, some gp =>
            { s1 with
              H := HessVal.updateStrategy
                     (ups ++ [(c.psub s1.x xp, c.gsub s1.g gp)]),
              H_updated := true }
        | _, _, _ => { s1 with H_updated := true }
    | HessStrategy.analytic hessf =>
        { s with H := HessVal.matrix (hessf s.x), hess_nhev := s.hess_nhev + 1,
                 H_updated := true }

/-- `ScalarFunction._update_x` (lines 328-349): when the Hessian strategy is
quasi-Newton, refresh the gradient at the old point, snapshot
`(x_prev, g_prev)`, overwrite the point, invalidate every cache and eagerly
recompute the Hessian; otherwise just overwrite the point and invalidate. -/
def update_x [LinearOrder V] (c : ScalarConf P V G Hm) (s : ScalarState P V G Hm)
    (x : P) : ScalarState P V G Hm :=
  match c.hess with
  | HessStrategy.quasiNewton =>
      let s1 := s.update_grad c
      let s2 := { s1 with x_prev := some s1.x, g_prev := some s1.g, x := x,
                          f_updated := false, g_updated := false, H_updated := false }
      s2.update_hess c
  | _ =>
      { s with x := x, f_updated := false, g_updated := false, H_updated := false }

/-- `ScalarFunction.fun` (lines 382-386): the public value accessor. -/
def call_fun [DecidableEq P] [LinearOrder V] (c : ScalarConf P V G Hm)
    (s : ScalarState P V G Hm) (x : P) : ScalarState P V G Hm × V :=
  let s1 := if x = s.x then s else s.update_x c x
  let s2 := s1.update_fun c
  (s2, s2.f)

/-- `ScalarFunction.grad` (lines 388-392): the public gradient accessor. -/
def call_grad [DecidableEq P] [LinearOrder V] (c : ScalarConf P V G Hm)
    (s : ScalarState P V G Hm) (x : P) : ScalarState P V G Hm × G :=
  let s1 := if x = s.x then s else s.update_x c x
  let s2 := s1.update_grad c
  (s2, s2.g)

/-- `ScalarFunction.hess` (lines 394-398): the public Hessian accessor. -/
def call_hess [DecidableEq P] [LinearOrder V] (c : ScalarConf P V G Hm)
    (s : ScalarState P V G Hm) (x : P) : ScalarState P V G Hm × HessVal P G Hm :=
  let s1 := if x = s.x then s else s.update_x c x
  let s2 := s1.update_hess c
  (s2, s2.H)

/-- The exported counter property `ScalarFunction.nfev`
(`self._nfev + self._wrapped_grad.nfev`, lines 316-318). -/
def nfevT (s : ScalarState P V G Hm) : Nat := s.nfev + s.grad_nfev

end ScalarState

/-- `ScalarFunction.__init__` (lines 209-314).  The `grad`/`hess` arguments
of the source are either callables or recognized keywords by the typing of
`GradStrategy`/`HessStrategy`, so of the construction-time `ValueError`
checks only the mutual-exclusion check (lines 224-228: `grad` and `hess`
both finite-difference) is representable, and it is the one modelled.
Construction then performs the initial function evaluation
(`self._update_fun()`), the initial gradient evaluation
(`self._update_grad()`), and the Hessian setup: a quasi-Newton strategy is
`initialize`d (zero `update` calls) with a `_FakeCounter`, a callable is
evaluated once by `_ScalarHessWrapper.__init__` (one `nhev`), a
finite-difference Hessian differences the just-computed gradient.  The
`default` placeholders stand for the not-yet-assigned attributes `self.f`,
`self.g`, `self.H`; each is overwritten before construction finishes. -/
def mkScalar [LinearOrder V] [Inhabited V] [Inhabited G] [Inhabited Hm]
    (c : ScalarConf P V G Hm) (x0 : P) : Except String (ScalarState P V G Hm) :=
  if c.grad.isFD && c.hess.isFD then
    Except.error "ValueError: FD gradient requires a quasi-Newton Hessian"
  else
    let s : ScalarState P V G Hm :=
      { x := x0, f := default, g := default, H := HessVal.matrix default,
        f_updated := false, g_updated := false, H_updated := false,
        nfev := 0, grad_ngev := 0, grad_nfev := 0, hess_nhev := 0, hess_ngev := 0,
        x_prev := none, g_prev := none, lowest_x := none, lowest_f := none }
    let s := s.update_fun c
    let s := s.update_grad c
    let s :=
      match c.hess with
      | HessStrategy.quasiNewton =>
          { s with H := HessVal.updateStrategy [], H_updated := true,
                   x_prev := none, g_prev := none }
      | HessStrategy.analytic hessf =>
          { s with H := HessVal.matrix (hessf x0), hess_nhev := s.hess_nhev + 1,
                   H_updated := true }
      | HessStrategy.fd m =>
          let s1 := s.update_grad c
          let p := c.fdHess m s1.x s1.g
          { s1 with H := HessVal.matrix p.1, hess_ngev := s1.hess_ngev + p.2,
                    H_updated := true }
    Except.ok s

/-- The gradient value the engine computes at a point whose caches are
stale: the user gradient for an analytic strategy, the finite-difference
estimate based on `f0 = fn x` for an FD strategy. -/
def gradAt (c : ScalarConf P V G Hm) (x : P) : G :=
  match c.grad with
  | GradStrategy.analytic gradf => gradf x
  | GradStrategy.fd m => (c.fdGrad m x (c.fn x)).1

/-!
## The vector engine `VectorFunction`

Additional type parameters: `VM` is the type of function values and of the
multiplier `v` (length-`m` numpy vectors), `Jm` the Jacobian type.  The
quasi-Newton secant term for a vector engine is
`delta_g = J.T.dot(v) - J_prev.T.dot(v)`, which lives in the gradient
space `G`.

Counter fields map to the source: `nfev`/`njev`/`nhev` are
`self._nfev`/`self._njev`/`self._nhev`, `jac_nfev` is
`_VectorJacWrapper.nfev` (finite-difference consumption), `hess_njev` is
`_VectorHessWrapper.njev`.  The exported properties are
`nfev = _nfev + jac_wrapped.nfev`, `njev = _njev + hess_wrapped.njev`,
`nhev = _nhev`.  The counters `_VectorFunWrapper.nfev`,
`_VectorJacWrapper.njev` and `_VectorHessWrapper.nhev` are written by the
source but never read (no property or method consults them), so they are
not modelled.
-/

/-- Jacobian strategy of `VectorFunction`: user callable or finite
difference. -/
inductive JacStrategy (P Jm : Type) : Type
  | analytic (jac : P → Jm)
  | fd (method : FDMethod)

/-- `jac in FD_METHODS`. -/
def JacStrategy.isFD {P Jm : Type} : JacStrategy P Jm → Bool
  | .analytic _ => false
  | .fd _ => true

/-- Hessian strategy of `VectorFunction`: user callable `hess(x, v)`,
finite-difference keyword, or a `HessianUpdateStrategy` object. -/
inductive VHessStrategy (P VM Hm : Type) : Type
  | analytic (hess : P → VM → Hm)
  | fd (method : FDMethod)
  | quasiNewton

/-- `hess in FD_METHODS`. -/
def VHessStrategy.isFD {P VM Hm : Type} : VHessStrategy P VM Hm → Bool
  | .fd _ => true
  | _ => false

/-- `isinstance(hess, HessianUpdateStrategy)`. -/
def VHessStrategy.isQN {P VM Hm : Type} : VHessStrategy P VM Hm → Bool
  | .quasiNewton => true
  | _ => false

/-- Configuration of a `VectorFunction` engine.  `fdJac m x f0` is
`approx_derivative(fun_wrapped, x, f0=f0, method=m, ...)` returning the
Jacobian and the consumed `dct['nfev']`.  `fdHess m x v J0` is the
finite-difference Hessian-of-`v.F` call with `as_linear_operator=True` and
the base Jacobian `J0` supplied: it builds a lazy linear operator and
performs no evaluation at call time.  `JTdot J v` is `J.T.dot(v)`,
`zeros_like` is `np.zeros_like` (the initial multiplier). -/
structure VectorConf (P VM Jm G Hm : Type) : Type where
  fn : P → VM
  jac : JacStrategy P Jm
  hess : VHessStrategy P VM Hm
  fdJac : FDMethod → P → VM → Jm × Nat
  fdHess : FDMethod → P → VM → Jm → Hm
  JTdot : Jm → VM → G
  psub : P → P → P
  gsub : G → G → G
  zeros_like : VM → VM

/-- The mutable state of a `VectorFunction` instance. -/
structure VectorState (P VM Jm G Hm : Type) : Type where
  x : P
  f : VM
  v : VM
  J : Jm
  H : HessVal P G Hm
  f_updated : Bool
  J_updated : Bool
  H_updated : Bool
  nfev : Nat
  njev : Nat
  nhev : Nat
  jac_nfev : Nat
  hess_njev : Nat
  x_prev : Option P
  J_prev : Option Jm
deriving DecidableEq, Inhabited

variable {VM Jm : Type}

namespace VectorState

/-- `VectorFunction._update_v` (lines 670-673): a changed multiplier
invalidates only the Hessian cache. -/
def update_v [DecidableEq VM] (s : VectorState P VM Jm G Hm) (v : VM) :
    VectorState P VM Jm G Hm :=
  if v = s.v then s else { s with v := v, H_updated := false }

/-- `VectorFunction._update_fun` (lines 694-698). -/
def update_fun (c : VectorConf P VM Jm G Hm) (s : VectorState P VM Jm G Hm) :
    VectorState P VM Jm G Hm :=
  if s.f_updated then s
  else { s with f := c.fn s.x, nfev := s.nfev + 1, f_updated := true }

/-- `VectorFunction._update_jac` (lines 700-709): a finite-difference
Jacobian first refreshes the function cache (its base value `f0`) and adds
the consumed evaluations to the jac wrapper's `nfev`; a callable Jacobian
counts one `_njev` and is evaluated directly (the sparse/dense/operator
normalization of `_VectorJacWrapper.__call__` is a representation choice on
`Jm` and is not modelled). -/
def update_jac (c : VectorConf P VM Jm G Hm) (s : VectorState P VM Jm G Hm) :
    VectorState P VM Jm G Hm :=
  if s.J_updated then s
  else
    match c.jac with
    | JacStrategy.fd m =>
        let s1 := s.update_fun c
        let p := c.fdJac m s1.x s1.f
        { s1 with J := p.1, jac_nfev := s1.jac_nfev + p.2, J_updated := true }
    | JacStrategy.analytic jacf =>
        { s with njev := s.njev + 1, J := jacf s.x, J_updated := true }

/-- `VectorFunction._update_hess` (lines 711-728).  Callable: evaluate
`hess(x, v)` and count one `_nhev`.  Finite difference: refresh the Jacobian
and build the lazy operator with `J0 = self.J`.  Quasi-Newton: refresh the
Jacobian, then — only if the `(x_prev, J_prev)` snapshot exists (the source
comment: when `v` is updated before `x` was ever updated they are `None`
and the update must be skipped) — feed
`(x - x_prev, J.T.dot(v) - J_prev.T.dot(v))` into the update object. -/
def update_hess (c : VectorConf P VM Jm G Hm) (s : VectorState P VM Jm G Hm) :
    VectorState P VM Jm G Hm :=
  if s.H_updated then s
  else
    match c.hess with
    | VHessStrategy.analytic hessf =>
        { s with H := HessVal.matrix (hessf s.x s.v), nhev := s.nhev + 1,
                 H_updated := true }
    | VHessStrategy.fd m =>
        let s1 := s.update_jac c
        { s1 with H := HessVal.matrix (c.fdHess m s1.x s1.v s1.J),
                  H_updated := true }
    | VHessStrategy.quasiNewton =>
        let s1 := s.update_jac c
        match s1.H, s1.x_prev, s1.J_prev with
        | HessVal.updateStrategy ups, some xp, some Jp =>
            { s1 with
              H := HessVal.updateStrategy
                     (ups ++ [(c.psub s1.x xp,
                               c.gsub (c.JTdot s1.J s1.v) (c.JTdot Jp s1.v))]),
              H_updated := true }
        | _, _, _ => { s1 with H_updated := true }

/-- `VectorFunction._update_x` (lines 675-692): a genuinely new point
invalidates all three caches; with a quasi-Newton Hessian the Jacobian is
refreshed at the old point, `(x_prev, J_prev)` snapshotted, and the Hessian
eagerly recomputed at the new point. -/
def update_x [DecidableEq P] (c : VectorConf P VM Jm G Hm)
    (s : VectorState P VM Jm G Hm) (x : P) : VectorState P VM Jm G Hm :=
  if x = s.x then s
  else
    match c.hess with
    | VHessStrategy.quasiNewton =>
        let s1 := s.update_jac c
        let s2 := { s1 with x_prev := some s1.x, J_prev := some s1.J, x := x,
                            f_updated := false, J_updated := false, H_updated := false }
        s2.update_hess c
    | _ =>
        { s with x := x, f_updated := false, J_updated := false, H_updated := false }

/-- `VectorFunction.fun` (lines 730-735); the returned value is a copy of
`self.f` (value semantics are implicit in the embedding). -/
def call_fun [DecidableEq P] (c : VectorConf P VM Jm G Hm)
    (s : VectorState P VM Jm G Hm) (x : P) : VectorState P VM Jm G Hm × VM :=
  let s1 := s.update_x c x
  let s2 := s1.update_fun c
  (s2, s2.f)

/-- `VectorFunction.jac` (lines 737-745). -/
def call_jac [DecidableEq P] (c : VectorConf P VM Jm G Hm)
    (s : VectorState P VM Jm G Hm) (x : P) : VectorState P VM Jm G Hm × Jm :=
  let s1 := s.update_x c x
  let s2 := s1.update_jac c
  (s2, s2.J)

/-- `VectorFunction.hess` (lines 747-757): `v` is updated before `x`. -/
def call_hess [DecidableEq P] [DecidableEq VM] (c : VectorConf P VM Jm G Hm)
    (s : VectorState P VM Jm G Hm) (x : P) (v : VM) :
    VectorState P VM Jm G Hm × HessVal P G Hm :=
  let s1 := s.update_v v
  let s2 := s1.update_x c x
  let s3 := s2.update_hess c
  (s3, s3.H)

/-- The exported counter property `VectorFunction.nfev`
(`self._nfev + self.jac_wrapped.nfev`, lines 658-660). -/
def nfevT (s : VectorState P VM Jm G Hm) : Nat := s.nfev + s.jac_nfev

/-- The exported counter property `VectorFunction.njev`
(`self._njev + self.hess_wrapped.njev`, lines 662-664). -/
def njevT (s : VectorState P VM Jm G Hm) : Nat := s.njev + s.hess_njev

end VectorState

/-- `VectorFunction.__init__` (lines 533-656).  As for the scalar engine,
only the mutual-exclusion `ValueError` (lines 545-549, repeated verbatim at
598-602) is representable under the typed strategies.  Construction then
evaluates the function (`self._update_fun()`), sets the initial multiplier
`v = np.zeros_like(self.f)`, evaluates the Jacobian (callable: one `_njev`;
finite difference: `dct['nfev']` added to `self._nfev`), and sets up the
Hessian: callable and finite-difference strategies are evaluated once via
`hess_wrapped(x, v, J0=J)` (a callable additionally counts one `_nhev`),
a quasi-Newton strategy is `initialize`d with `x_prev = J_prev = None`. -/
def mkVector [DecidableEq P] [Inhabited VM] [Inhabited Jm] [Inhabited Hm]
    (c : VectorConf P VM Jm G Hm) (x0 : P) :
    Except String (VectorState P VM Jm G Hm) :=
  if c.jac.isFD && c.hess.isFD then
    Except.error "ValueError: FD Jacobian requires a quasi-Newton Hessian"
  else
    let s : VectorState P VM Jm G Hm :=
      { x := x0, f := default, v := default, J := default,
        H := HessVal.matrix default,
        f_updated := false, J_updated := false, H_updated := false,
        nfev := 0, njev := 0, nhev := 0, jac_nfev := 0, hess_njev := 0,
        x_prev := none, J_prev := none }
    let s := s.update_fun c
    let s := { s with v := c.zeros_like s.f }
    let s :=
      match c.jac with
      | JacStrategy.analytic jacf =>
          { s with J := jacf s.x, J_updated := true, njev := s.njev + 1 }
      | JacStrategy.fd m =>
          let p := c.fdJac m s.x s.f
          { s with J := p.1, J_updated := true, nfev := s.nfev + p.2 }
    let s :=
      match c.hess with
      | VHessStrategy.analytic hessf =>
          { s with H := HessVal.matrix (hessf s.x s.v), H_updated := true,
                   nhev := s.nhev + 1 }
      | VHessStrategy.fd m =>
          { s with H := HessVal.matrix (c.fdHess m s.x s.v s.J),
                   H_updated := true }
      | VHessStrategy.quasiNewton =>
          { s with H := HessVal.updateStrategy [], H_updated := true,
                   x_prev := none, J_prev := none }
    Except.ok s

/-- The Jacobian value the vector engine computes at a point whose caches
are stale. -/
def jacAt {P VM Jm G Hm : Type} (c : VectorConf P VM Jm G Hm) (x : P) : Jm :=
  match c.jac with
  | JacStrategy.analytic jacf => jacf x
  | JacStrategy.fd m => (c.fdJac m x (c.fn x)).1

/-!
## The structural function `LinearVectorFunction`

`F(x) = A x` for a fixed matrix `A`.  Matrices are lists of rows over `ℚ`
(idealized real arithmetic); the dense/sparse representation choice of the
source (`csr_array` versus `ndarray`) is a storage format and is not
modelled — `self.H = sps.csr_array((self.n, self.n))` is the all-zero
`n × n` matrix. -/

/-- Row–vector dot product `row . x`. -/
def dotQ (r x : List ℚ) : ℚ := (List.zipWith (· * ·) r x).sum

/-- Matrix–vector product `A.dot(x)`. -/
def matvecQ (A : List (List ℚ)) (x : List ℚ) : List ℚ := A.map (fun r => dotQ r x)

/-- The all-zero `m × n` matrix. -/
def zeroMatQ (m n : Nat) : List (List ℚ) :=
  List.replicate m (List.replicate n (0 : ℚ))

/-- The state of a `LinearVectorFunction` instance (lines 760-817). -/
structure LinState : Type where
  J : List (List ℚ)
  m : Nat
  n : Nat
  x : List ℚ
  f : List ℚ
  f_updated : Bool
  v : List ℚ
  H : List (List ℚ)
deriving DecidableEq, Inhabited

/-- `LinearVectorFunction.__init__` (lines 767-795): store `A` as the
constant Jacobian, record its shape, evaluate `f = J.dot(x0)` eagerly, set
the zero multiplier and the all-zero `n × n` Hessian. -/
def mkLinear (A : List (List ℚ)) (x0 : List ℚ) : LinState :=
  let m := A.length
  let n := (A.headD []).length
  { J := A, m := m, n := n, x := x0, f := matvecQ A x0, f_updated := true,
    v := List.replicate m (0 : ℚ), H := zeroMatQ n n }

namespace LinState

/-- `LinearVectorFunction._update_x` (lines 797-801): a new point only
invalidates the function value. -/
def update_x (s : LinState) (x : List ℚ) : LinState :=
  if x = s.x then s else { s with x := x, f_updated := false }

/-- `LinearVectorFunction.fun` (lines 803-808): recompute `J.dot(x)` when
stale. -/
def call_fun (s : LinState) (x : List ℚ) : LinState × List ℚ :=
  let s1 := s.update_x x
  if s1.f_updated then (s1, s1.f)
  else ({ s1 with f := matvecQ s1.J x, f_updated := true }, matvecQ s1.J x)

/-- `LinearVectorFunction.jac` (lines 810-812): the constant `A`. -/
def call_jac (s : LinState) (x : List ℚ) : LinState × List (List ℚ) :=
  let s1 := s.update_x x
  (s1, s1.J)

/-- `LinearVectorFunction.hess` (lines 814-817): store `v`, return the zero
matrix. -/
def call_hess (s : LinState) (x : List ℚ) (v : List ℚ) :
    LinState × List (List ℚ) :=
  let s1 := s.update_x x
  let s2 := { s1 with v := v }
  (s2, s2.H)

end LinState

/-!
## Best-point tracking

`minOf` is the minimum of a list of function values (`none` on the empty
list); `LowestOk c W s` says the tracker `(self._lowest_x, self._lowest_f)`
holds the minimum of the user function over the points `W` together with a
point of `W` attaining it. -/

/-- Minimum of a list of values. -/
def minOf [LinearOrder V] : List V → Option V
  | [] => none
  | a :: l =>
      some (match minOf l with
            | none => a
            | some b => min a b)

/-- Option-level minimum, absorbing `none`. -/
def omin [LinearOrder V] : Option V → Option V → Option V
  | none, b => b
  | some a, none => some a
  | some a, some b => some (min a b)

/-- The best-point tracker of a scalar engine is correct for the point list
`W`: `_lowest_f` is the minimum of the function over `W` and `_lowest_x` is
a point of `W` attaining it. -/
def LowestOk [LinearOrder V] (c : ScalarConf P V G Hm) (W : List P)
    (s : ScalarState P V G Hm) : Prop :=
  s.lowest_f = minOf (W.map c.fn) ∧
    ∃ y, y ∈ W ∧ s.lowest_x = some y ∧ some (c.fn y) = minOf (W.map c.fn)

/-- Run a sequence of public `fun` calls. -/
def runFuns [DecidableEq P] [LinearOrder V] (c : ScalarConf P V G Hm) :
    ScalarState P V G Hm → List P → ScalarState P V G Hm
  | s, [] => s
  | s, x :: xs => runFuns c (s.call_fun c x).1 xs

/-- Coherence of the public bookkeeping: the function cache is fresh, and
under a quasi-Newton Hessian the gradient cache is fresh as well.  Every
state produced by `mkScalar` or by a public accessor satisfies this. -/
def ScalarCallInv [LinearOrder V] (c : ScalarConf P V G Hm)
    (s : ScalarState P V G Hm) : Prop :=
  s.f_updated = true ∧ (c.hess.isQN = true → s.g_updated = true)

/-- Coherence of the vector engine's Hessian bookkeeping: under a
finite-difference or quasi-Newton Hessian strategy, a fresh Hessian cache
implies a fresh Jacobian cache (`_update_hess` always refreshes the
Jacobian before using it, and construction initializes both, so every
reachable state satisfies this). -/
def VectorHessInv {P VM Jm G Hm : Type} (c : VectorConf P VM Jm G Hm)
    (s : VectorState P VM Jm G Hm) : Prop :=
  (c.hess.isFD = true ∨ c.hess.isQN = true) → s.H_updated = true →
    s.J_updated = true

/-!
## Concrete instances used as witnesses

One-dimensional integer engines: points, values, gradients and Hessians are
all integers, the objective is `x ^ 2` with gradient `2 x` and Hessian `2`,
and the stand-in finite-difference collaborator returns the exact gradient
at a cost of two consumed evaluations.
-/

/-- Scalar engine configuration: analytic gradient, analytic Hessian. -/
def exConfAA : ScalarConf Int Int Int Int :=
  { fn := fun x => x * x
    grad := GradStrategy.analytic (fun x => 2 * x)
    hess := HessStrategy.analytic (fun _ => 2)
    fdGrad := fun _ x _ => (2 * x, 2)
    fdHess := fun _ _ _ => (2, 2)
    psub := fun a b => a - b
    gsub := fun a b => a - b }

/-- Scalar engine configuration: analytic gradient, quasi-Newton Hessian. -/
def exConfAQN : ScalarConf Int Int Int Int :=
  { exConfAA with hess := HessStrategy.quasiNewton }

/-- Scalar engine configuration: finite-difference gradient, quasi-Newton
Hessian. -/
def exConfFDQN : ScalarConf Int Int Int Int :=
  { exConfAA with grad := GradStrategy.fd FDMethod.twoPoint,
                  hess := HessStrategy.quasiNewton }

/-- Scalar engine configuration: finite-difference gradient, analytic
Hessian. -/
def exConfFDA : ScalarConf Int Int Int Int :=
  { exConfAA with grad := GradStrategy.fd FDMethod.twoPoint }

/-- Scalar engine configuration: finite-difference gradient and
finite-difference Hessian (the forbidden combination). -/
def exConfFDFD : ScalarConf Int Int Int Int :=
  { exConfAA with grad := GradStrategy.fd FDMethod.twoPoint,
                  hess := HessStrategy.fd FDMethod.threePoint }

/-- The engine of `exConfAA` constructed at `x0 = 0`. -/
def exS0 : ScalarState Int Int Int Int :=
  (mkScalar exConfAA 0).toOption.getD default

/-- The engine of `exConfAQN` constructed at `x0 = 0`. -/
def exS0AQN : ScalarState Int Int Int Int :=
  (mkScalar exConfAQN 0).toOption.getD default

/-- The engine of `exConfFDA` constructed at `x0 = 0`. -/
def exS0FDA : ScalarState Int Int Int Int :=
  (mkScalar exConfFDA 0).toOption.getD default

/-- Vector engine configuration over one-dimensional integers:
`F(x) = 2 x`, analytic Jacobian `2`, analytic Hessian `v`. -/
def exVConfA : VectorConf Int Int Int Int Int :=
  { fn := fun x => 2 * x
    jac := JacStrategy.analytic (fun _ => 2)
    hess := VHessStrategy.analytic (fun _ v => v)
    fdJac := fun _ _ _ => (2, 3)
    fdHess := fun _ _ v J => J * v
    JTdot := fun J v => J * v
    psub := fun a b => a - b
    gsub := fun a b => a - b
    zeros_like := fun _ => 0 }

/-- Vector engine configuration: analytic Jacobian, quasi-Newton Hessian. -/
def exVConfQN : VectorConf Int Int Int Int Int :=
  { exVConfA with hess := VHessStrategy.quasiNewton }

/-- Vector engine configuration: finite-difference Jacobian and
finite-difference Hessian (the forbidden combination). -/
def exVConfFDFD : VectorConf Int Int Int Int Int :=
  { exVConfA with jac := JacStrategy.fd FDMethod.twoPoint,
                  hess := VHessStrategy.fd FDMethod.threePoint }

/-- The engine of `exVConfA` constructed at `x0 = 0`. -/
def exVS0A : VectorState Int Int Int Int Int :=
  (mkVector exVConfA 0).toOption.getD default

/-- The engine of `exVConfQN` constructed at `x0 = 0`. -/
def exVS0QN : VectorState Int Int Int Int Int :=
  (mkVector exVConfQN 0).toOption.getD default

/-!
## Helper lemmas: scalar engine
-/

namespace ScalarState

variable [LinearOrder V]

@[simp] theorem update_fun_x (c : ScalarConf P V G Hm) (s : ScalarState P V G Hm) :
    (s.update_fun c).x = s.x := by
  unfold update_fun; split
  · rfl
  · split <;> rfl

@[simp] theorem update_fun_f_updated (c : ScalarConf P V G Hm)
    (s : ScalarState P V G Hm) : (s.update_fun c).f_updated = true := by
  unfold update_fun; split
  · assumption
  · split <;> rfl

@[simp] theorem update_fun_g_updated (c : ScalarConf P V G Hm)
    (s : ScalarState P V G Hm) : (s.update_fun c).g_updated = s.g_updated := by
  unfold update_fun; split
  · rfl
  · split <;> rfl

@[simp] theorem update_fun_g (c : ScalarConf P V G Hm) (s : ScalarState P V G Hm) :
    (s.update_fun c).g = s.g := by
  unfold update_fun; split
  · rfl
  · split <;> rfl

@[simp] theorem update_fun_H (c : ScalarConf P V G Hm) (s : ScalarState P V G Hm) :
    (s.update_fun c).H = s.H := by
  unfold update_fun; split
  · rfl
  · split <;> rfl

@[simp] theorem update_fun_H_updated (c : ScalarConf P V G Hm)
    (s : ScalarState P V G Hm) : (s.update_fun c).H_updated = s.H_updated := by
  unfold update_fun; split
  · rfl
  · split <;> rfl

@[simp] theorem update_fun_x_prev (c : ScalarConf P V G Hm)
    (s : ScalarState P V G Hm) : (s.update_fun c).x_prev = s.x_prev := by
  unfold update_fun; split
  · rfl
  · split <;> rfl

@[simp] theorem update_fun_g_prev (c : ScalarConf P V G Hm)
    (s : ScalarState P V G Hm) : (s.update_fun c).g_prev = s.g_prev := by
  unfold update_fun; split
  · rfl
  · split <;> rfl

@[simp] theorem update_fun_grad_ngev (c : ScalarConf P V G Hm)
    (s : ScalarState P V G Hm) : (s.update_fun c).grad_ngev = s.grad_ngev := by
  unfold update_fun; split
  · rfl
  · split <;> rfl

@[simp] theorem update_fun_grad_nfev (c : ScalarConf P V G Hm)
    (s : ScalarState P V G Hm) : (s.update_fun c).grad_nfev = s.grad_nfev := by
  unfold update_fun; split
  · rfl
  · split <;> rfl

@[simp] theorem update_fun_hess_nhev (c : ScalarConf P V G Hm)
    (s : ScalarState P V G Hm) : (s.update_fun c).hess_nhev = s.hess_nhev := by
  unfold update_fun; split
  · rfl
  · split <;> rfl

@[simp] theorem update_fun_hess_ngev (c : ScalarConf P V G Hm)
    (s : ScalarState P V G Hm) : (s.update_fun c).hess_ngev = s.hess_ngev := by
  unfold update_fun; split
  · rfl
  · split <;> rfl

theorem update_fun_of_updated (c : ScalarConf P V G Hm) (s : ScalarState P V G Hm)
    (h : s.f_updated = true) : s.update_fun c = s := by
  unfold update_fun; simp [h]

@[simp] theorem update_fun_nfev (c : ScalarConf P V G Hm) (s : ScalarState P V G Hm) :
    (s.update_fun c).nfev = if s.f_updated then s.nfev else s.nfev + 1 := by
  unfold update_fun; split
  · simp_all
  · split <;> simp_all

theorem update_fun_f (c : ScalarConf P V G Hm) (s : ScalarState P V G Hm) :
    (s.update_fun c).f = if s.f_updated then s.f else c.fn s.x := by
  unfold update_fun; split
  · simp_all
  · split <;> simp_all

theorem update_grad_of_updated (c : ScalarConf P V G Hm) (s : ScalarState P V G Hm)
    (h : s.g_updated = true) : s.update_grad c = s := by
  unfold update_grad; simp [h]

/-- `_update_grad` with a stale gradient cache and an analytic strategy. -/
theorem update_grad_analytic (c : ScalarConf P V G Hm) (s : ScalarState P V G Hm)
    {gradf : P → G} (hg : c.grad = GradStrategy.analytic gradf)
    (h : s.g_updated = false) :
    s.update_grad c =
      { s with g := gradf s.x, g_updated := true, grad_ngev := s.grad_ngev + 1 } := by
  unfold update_grad; simp [h, hg]

/-- `_update_grad` with a stale gradient cache and a finite-difference
strategy. -/
theorem update_grad_fd (c : ScalarConf P V G Hm) (s : ScalarState P V G Hm)
    {m : FDMethod} (hg : c.grad = GradStrategy.fd m) (h : s.g_updated = false) :
    s.update_grad c =
      { s.update_fun c with
        g := (c.fdGrad m (s.update_fun c).x (s.update_fun c).f).1,
        g_updated := true,
        grad_ngev := (s.update_fun c).grad_ngev + 1,
        grad_nfev := (s.update_fun c).grad_nfev
          + (c.fdGrad m (s.update_fun c).x (s.update_fun c).f).2 } := by
  unfold update_grad; simp [h, hg]

@[simp] theorem update_grad_x (c : ScalarConf P V G Hm) (s : ScalarState P V G Hm) :
    (s.update_grad c).x = s.x := by
  unfold update_grad; split
  · rfl
  · split <;> simp

@[simp] theorem update_grad_g_updated (c : ScalarConf P V G Hm)
    (s : ScalarState P V G Hm) : (s.update_grad c).g_updated = true := by
  unfold update_grad; split
  · assumption
  · split <;> simp

@[simp] theorem update_grad_H (c : ScalarConf P V G Hm) (s : ScalarState P V G Hm) :
    (s.update_grad c).H = s.H := by
  unfold update_grad; split
  · rfl
  · split <;> simp

@[simp] theorem update_grad_H_updated (c : ScalarConf P V G Hm)
    (s : ScalarState P V G Hm) : (s.update_grad c).H_updated = s.H_updated := by
  unfold update_grad; split
  · rfl
  · split <;> simp

@[simp] theorem update_grad_x_prev (c : ScalarConf P V G Hm)
    (s : ScalarState P V G Hm) : (s.update_grad c).x_prev = s.x_prev := by
  unfold update_grad; split
  · rfl
  · split <;> simp

@[simp] theorem update_grad_g_prev (c : ScalarConf P V G Hm)
    (s : ScalarState P V G Hm) : (s.update_grad c).g_prev = s.g_prev := by
  unfold update_grad; split
  · rfl
  · split <;> simp

/-- The gradient value computed by `_update_grad` at a point whose function
cache is either stale or holds the correct value. -/
theorem update_grad_g (c : ScalarConf P V G Hm) (s : ScalarState P V G Hm)
    (h : s.g_updated = false)
    (hf : s.f_updated = true → s.f = c.fn s.x) :
    (s.update_grad c).g = gradAt c s.x := by
  unfold gradAt
  rcases hg : c.grad with gradf | m
  · rw [update_grad_analytic c s hg h]
  · rw [update_grad_fd c s hg h]
    rcases hu : s.f_updated with _ | _
    · simp [update_fun_f, hu]
    · simp [update_fun_of_updated c s hu, hf hu]

theorem update_hess_of_updated (c : ScalarConf P V G Hm) (s : ScalarState P V G Hm)
    (h : s.H_updated = true) : s.update_hess c = s := by
  unfold update_hess; simp [h]

@[simp] theorem update_hess_x (c : ScalarConf P V G Hm) (s : ScalarState P V G Hm) :
    (s.update_hess c).x = s.x := by
  unfold update_hess; split
  · rfl
  · split
    · simp
    · dsimp only; split <;> simp
    · rfl

@[simp] theorem update_hess_H_updated (c : ScalarConf P V G Hm)
    (s : ScalarState P V G Hm) : (s.update_hess c).H_updated = true := by
  unfold update_hess; split
  · assumption
  · split
    · simp
    · dsimp only; split <;> simp
    · rfl

@[simp] theorem update_hess_x_prev (c : ScalarConf P V G Hm)
    (s : ScalarState P V G Hm) : (s.update_hess c).x_prev = s.x_prev := by
  unfold update_hess; split
  · rfl
  · split
    · simp
    · dsimp only; split <;> simp
    · rfl

@[simp] theorem update_hess_g_prev (c : ScalarConf P V G Hm)
    (s : ScalarState P V G Hm) : (s.update_hess c).g_prev = s.g_prev := by
  unfold update_hess; split
  · rfl
  · split
    · simp
    · dsimp only; split <;> simp
    · rfl

@[simp] theorem update_x_x (c : ScalarConf P V G Hm) (s : ScalarState P V G Hm)
    (x : P) : (s.update_x c x).x = x := by
  unfold update_x; split
  · simp
  · rfl

@[simp] theorem call_fun_x [DecidableEq P] (c : ScalarConf P V G Hm)
    (s : ScalarState P V G Hm) (x : P) : ((s.call_fun c x).1).x = x := by
  unfold call_fun
  rcases h : decide (x = s.x) with _ | _ <;> simp_all

@[simp] theorem call_fun_f_updated [DecidableEq P] (c : ScalarConf P V G Hm)
    (s : ScalarState P V G Hm) (x : P) : ((s.call_fun c x).1).f_updated = true := by
  unfold call_fun; simp

theorem call_fun_snd [DecidableEq P] (c : ScalarConf P V G Hm)
    (s : ScalarState P V G Hm) (x : P) : (s.call_fun c x).2 = ((s.call_fun c x).1).f := by
  unfold call_fun; simp

/-- A `fun` call at the currently cached point with a fresh function cache
is a complete no-op that returns the memoized value. -/
theorem call_fun_cached [DecidableEq P] (c : ScalarConf P V G Hm)
    (s : ScalarState P V G Hm) (x : P) (hx : x = s.x) (hf : s.f_updated = true) :
    s.call_fun c x = (s, s.f) := by
  unfold call_fun
  simp [hx, update_fun_of_updated c s hf]

@[simp] theorem call_hess_x [DecidableEq P] (c : ScalarConf P V G Hm)
    (s : ScalarState P V G Hm) (x : P) : ((s.call_hess c x).1).x = x := by
  unfold call_hess
  rcases h : decide (x = s.x) with _ | _ <;> simp_all

@[simp] theorem call_grad_x [DecidableEq P] (c : ScalarConf P V G Hm)
    (s : ScalarState P V G Hm) (x : P) : ((s.call_grad c x).1).x = x := by
  unfold call_grad
  rcases h : decide (x = s.x) with _ | _ <;> simp_all

/-- `_update_x` under a non-quasi-Newton Hessian strategy just moves the
point and invalidates the caches. -/
theorem update_x_nonqn (c : ScalarConf P V G Hm) (s : ScalarState P V G Hm)
    (x : P) (hh : c.hess.isQN = false) :
    s.update_x c x =
      { s with x := x, f_updated := false, g_updated := false,
               H_updated := false } := by
  unfold update_x
  rcases hch : c.hess with _ | _ | _
  · rfl
  · rfl
  · rw [hch] at hh
    simp [HessStrategy.isQN] at hh

/-- `_update_x` under a quasi-Newton Hessian with a fresh gradient cache:
snapshot, move, invalidate, eagerly update the Hessian. -/
theorem update_x_qn (c : ScalarConf P V G Hm) (s : ScalarState P V G Hm)
    (x : P) (hh : c.hess = HessStrategy.quasiNewton) (hgu : s.g_updated = true) :
    s.update_x c x =
      ({ s with x_prev := some s.x, g_prev := some s.g, x := x,
                f_updated := false, g_updated := false,
                H_updated := false } : ScalarState P V G Hm).update_hess c := by
  unfold update_x
  rw [hh]
  rw [update_grad_of_updated c s hgu]

end ScalarState

/-- Characterization of a freshly constructed `ScalarFunction`: the point is
`x0`, the function and gradient caches are fresh and hold the values at
`x0`, exactly one direct function evaluation and one gradient evaluation
have happened, the best-point tracker holds `x0`, and the Hessian slot is
set according to the strategy. -/
theorem mkScalar_spec [LinearOrder V] [Inhabited V] [Inhabited G] [Inhabited Hm]
    (c : ScalarConf P V G Hm) (x0 : P) (s : ScalarState P V G Hm)
    (h : mkScalar c x0 = Except.ok s) :
    s.x = x0 ∧ s.f = c.fn x0 ∧ s.f_updated = true ∧ s.g_updated = true ∧
      s.g = gradAt c x0 ∧ s.nfev = 1 ∧ s.grad_ngev = 1 ∧
      s.lowest_x = some x0 ∧ s.lowest_f = some (c.fn x0) ∧ s.H_updated = true ∧
      (c.hess = HessStrategy.quasiNewton →
        s.H = HessVal.updateStrategy [] ∧ s.x_prev = none ∧ s.g_prev = none ∧
          s.hess_nhev = 0) ∧
      (∀ hessf, c.hess = HessStrategy.analytic hessf →
        s.H = HessVal.matrix (hessf x0) ∧ s.hess_nhev = 1) ∧
      (∀ m, c.hess = HessStrategy.fd m →
        s.H = HessVal.matrix (c.fdHess m x0 (gradAt c x0)).1 ∧
          s.hess_nhev = 0) := by
  unfold mkScalar at h
  split at h
  · exact absurd h (by simp)
  · rw [Except.ok.injEq] at h
    subst h
    rcases hg : c.grad with gradf | m <;>
      rcases hh : c.hess with hessf | m2 | _ <;>
        simp [ScalarState.update_fun, ScalarState.update_grad, ltLowest,
              gradAt, hg, hh]

namespace ScalarState

/-- One public `fun` call: a call at the cached point costs no direct
function evaluation, a call at a new point costs exactly one, and the
coherence invariant is preserved. -/
theorem call_fun_step [DecidableEq P] [LinearOrder V] (c : ScalarConf P V G Hm)
    (s : ScalarState P V G Hm) (x : P) (h : ScalarCallInv c s) :
    ((s.call_fun c x).1).nfev = (if x = s.x then s.nfev else s.nfev + 1) ∧
      ScalarCallInv c (s.call_fun c x).1 := by
  obtain ⟨hf, hq⟩ := h
  by_cases hx : x = s.x
  · rw [call_fun_cached c s x hx hf]
    exact ⟨by simp [hx], hf, hq⟩
  · unfold call_fun
    simp only [if_neg hx]
    rcases hh : c.hess with hessf | m | _
    · rw [update_x_nonqn c s x (by simp [hh, HessStrategy.isQN])]
      refine ⟨by simp [hx], by simp, ?_⟩
      simp [hh, HessStrategy.isQN]
    · rw [update_x_nonqn c s x (by simp [hh, HessStrategy.isQN])]
      refine ⟨by simp [hx], by simp, ?_⟩
      simp [hh, HessStrategy.isQN]
    · have hgu := hq (by simp [hh, HessStrategy.isQN])
      rw [update_x_qn c s x hh hgu]
      set t : ScalarState P V G Hm :=
        { s with x_prev := some s.x, g_prev := some s.g, x := x,
                 f_updated := false, g_updated := false, H_updated := false }
        with ht
      have htH : t.update_hess c =
          (let s1 := t.update_grad c
           match s1.H, s1.x_prev, s1.g_prev with
           | HessVal.updateStrategy ups, some xp, some gp =>
               { s1 with
                 H := HessVal.updateStrategy
                        (ups ++ [(c.psub s1.x xp, c.gsub s1.g gp)]),
                 H_updated := true }
           | _, _, _ => { s1 with H_updated := true }) := by
        unfold update_hess
        rw [hh]
        rfl
      rcases hg : c.grad with gradf | m2
      · rw [htH, update_grad_analytic c t hg rfl]
        dsimp only
        rcases hHs : s.H with Hmat | ups <;>
          refine ⟨?_, ?_, fun _ => ?_⟩ <;>
            simp [ScalarState.update_fun_nfev, hHs, hx, ht]
      · rw [htH, update_grad_fd c t hg rfl]
        dsimp only
        rcases hHs : s.H with Hmat | ups <;>
          refine ⟨?_, ?_, fun _ => ?_⟩ <;>
            simp [ScalarState.update_fun_nfev, hHs, hx, ht]

end ScalarState

/-!
## Helper lemmas: vector engine
-/

namespace VectorState

variable {VM Jm : Type}

theorem update_v_eq [DecidableEq VM] (s : VectorState P VM Jm G Hm) (v : VM)
    (h : v = s.v) : s.update_v v = s := by
  unfold update_v; simp [h]

theorem update_v_ne [DecidableEq VM] (s : VectorState P VM Jm G Hm) (v : VM)
    (h : ¬v = s.v) : s.update_v v = { s with v := v, H_updated := false } := by
  unfold update_v; simp [h]

@[simp] theorem update_v_v [DecidableEq VM] (s : VectorState P VM Jm G Hm)
    (v : VM) : (s.update_v v).v = v := by
  unfold update_v; split <;> simp_all

theorem vupdate_fun_of_updated (c : VectorConf P VM Jm G Hm)
    (s : VectorState P VM Jm G Hm) (h : s.f_updated = true) :
    s.update_fun c = s := by
  unfold update_fun; simp [h]

@[simp] theorem vupdate_fun_x (c : VectorConf P VM Jm G Hm)
    (s : VectorState P VM Jm G Hm) : (s.update_fun c).x = s.x := by
  unfold update_fun; split <;> rfl

@[simp] theorem update_fun_v (c : VectorConf P VM Jm G Hm)
    (s : VectorState P VM Jm G Hm) : (s.update_fun c).v = s.v := by
  unfold update_fun; split <;> rfl

@[simp] theorem update_fun_J (c : VectorConf P VM Jm G Hm)
    (s : VectorState P VM Jm G Hm) : (s.update_fun c).J = s.J := by
  unfold update_fun; split <;> rfl

@[simp] theorem update_fun_J_updated (c : VectorConf P VM Jm G Hm)
    (s : VectorState P VM Jm G Hm) : (s.update_fun c).J_updated = s.J_updated := by
  unfold update_fun; split <;> rfl

@[simp] theorem vupdate_fun_H (c : VectorConf P VM Jm G Hm)
    (s : VectorState P VM Jm G Hm) : (s.update_fun c).H = s.H := by
  unfold update_fun; split <;> rfl

@[simp] theorem vupdate_fun_H_updated (c : VectorConf P VM Jm G Hm)
    (s : VectorState P VM Jm G Hm) : (s.update_fun c).H_updated = s.H_updated := by
  unfold update_fun; split <;> rfl

@[simp] theorem vupdate_fun_f_updated (c : VectorConf P VM Jm G Hm)
    (s : VectorState P VM Jm G Hm) : (s.update_fun c).f_updated = true := by
  unfold update_fun; split
  · assumption
  · rfl

@[simp] theorem vupdate_fun_nfev (c : VectorConf P VM Jm G Hm)
    (s : VectorState P VM Jm G Hm) :
    (s.update_fun c).nfev = if s.f_updated then s.nfev else s.nfev + 1 := by
  unfold update_fun; split <;> simp_all

@[simp] theorem update_fun_njev (c : VectorConf P VM Jm G Hm)
    (s : VectorState P VM Jm G Hm) : (s.update_fun c).njev = s.njev := by
  unfold update_fun; split <;> rfl

@[simp] theorem update_fun_nhev (c : VectorConf P VM Jm G Hm)
    (s : VectorState P VM Jm G Hm) : (s.update_fun c).nhev = s.nhev := by
  unfold update_fun; split <;> rfl

@[simp] theorem update_fun_jac_nfev (c : VectorConf P VM Jm G Hm)
    (s : VectorState P VM Jm G Hm) : (s.update_fun c).jac_nfev = s.jac_nfev := by
  unfold update_fun; split <;> rfl

@[simp] theorem update_fun_hess_njev (c : VectorConf P VM Jm G Hm)
    (s : VectorState P VM Jm G Hm) : (s.update_fun c).hess_njev = s.hess_njev := by
  unfold update_fun; split <;> rfl

@[simp] theorem vupdate_fun_x_prev (c : VectorConf P VM Jm G Hm)
    (s : VectorState P VM Jm G Hm) : (s.update_fun c).x_prev = s.x_prev := by
  unfold update_fun; split <;> rfl

@[simp] theorem update_fun_J_prev (c : VectorConf P VM Jm G Hm)
    (s : VectorState P VM Jm G Hm) : (s.update_fun c).J_prev = s.J_prev := by
  unfold update_fun; split <;> rfl

theorem vupdate_fun_f (c : VectorConf P VM Jm G Hm)
    (s : VectorState P VM Jm G Hm) :
    (s.update_fun c).f = if s.f_updated then s.f else c.fn s.x := by
  unfold update_fun; split <;> simp_all

theorem update_jac_of_updated (c : VectorConf P VM Jm G Hm)
    (s : VectorState P VM Jm G Hm) (h : s.J_updated = true) :
    s.update_jac c = s := by
  unfold update_jac; simp [h]

/-- `_update_jac` with a stale Jacobian cache and an analytic strategy. -/
theorem update_jac_analytic (c : VectorConf P VM Jm G Hm)
    (s : VectorState P VM Jm G Hm) {jacf : P → Jm}
    (hj : c.jac = JacStrategy.analytic jacf) (h : s.J_updated = false) :
    s.update_jac c =
      { s with njev := s.njev + 1, J := jacf s.x, J_updated := true } := by
  unfold update_jac; simp [h, hj]

/-- `_update_jac` with a stale Jacobian cache and a finite-difference
strategy. -/
theorem update_jac_fd (c : VectorConf P VM Jm G Hm)
    (s : VectorState P VM Jm G Hm) {m : FDMethod}
    (hj : c.jac = JacStrategy.fd m) (h : s.J_updated = false) :
    s.update_jac c =
      { s.update_fun c with
        J := (c.fdJac m (s.update_fun c).x (s.update_fun c).f).1,
        jac_nfev := (s.update_fun c).jac_nfev
          + (c.fdJac m (s.update_fun c).x (s.update_fun c).f).2,
        J_updated := true } := by
  unfold update_jac; simp [h, hj]

@[simp] theorem update_jac_x (c : VectorConf P VM Jm G Hm)
    (s : VectorState P VM Jm G Hm) : (s.update_jac c).x = s.x := by
  unfold update_jac; split
  · rfl
  · split <;> simp

@[simp] theorem update_jac_v (c : VectorConf P VM Jm G Hm)
    (s : VectorState P VM Jm G Hm) : (s.update_jac c).v = s.v := by
  unfold update_jac; split
  · rfl
  · split <;> simp

@[simp] theorem update_jac_J_updated (c : VectorConf P VM Jm G Hm)
    (s : VectorState P VM Jm G Hm) : (s.update_jac c).J_updated = true := by
  unfold update_jac; split
  · assumption
  · split <;> simp

@[simp] theorem update_jac_H (c : VectorConf P VM Jm G Hm)
    (s : VectorState P VM Jm G Hm) : (s.update_jac c).H = s.H := by
  unfold update_jac; split
  · rfl
  · split <;> simp

@[simp] theorem update_jac_H_updated (c : VectorConf P VM Jm G Hm)
    (s : VectorState P VM Jm G Hm) : (s.update_jac c).H_updated = s.H_updated := by
  unfold update_jac; split
  · rfl
  · split <;> simp

@[simp] theorem update_jac_nhev (c : VectorConf P VM Jm G Hm)
    (s : VectorState P VM Jm G Hm) : (s.update_jac c).nhev = s.nhev := by
  unfold update_jac; split
  · rfl
  · split <;> simp

@[simp] theorem update_jac_hess_njev (c : VectorConf P VM Jm G Hm)
    (s : VectorState P VM Jm G Hm) : (s.update_jac c).hess_njev = s.hess_njev := by
  unfold update_jac; split
  · rfl
  · split <;> simp

@[simp] theorem update_jac_x_prev (c : VectorConf P VM Jm G Hm)
    (s : VectorState P VM Jm G Hm) : (s.update_jac c).x_prev = s.x_prev := by
  unfold update_jac; split
  · rfl
  · split <;> simp

@[simp] theorem update_jac_J_prev (c : VectorConf P VM Jm G Hm)
    (s : VectorState P VM Jm G Hm) : (s.update_jac c).J_prev = s.J_prev := by
  unfold update_jac; split
  · rfl
  · split <;> simp

theorem vupdate_hess_of_updated (c : VectorConf P VM Jm G Hm)
    (s : VectorState P VM Jm G Hm) (h : s.H_updated = true) :
    s.update_hess c = s := by
  unfold update_hess; simp [h]

/-- `_update_hess` with a stale Hessian cache and a callable strategy. -/
theorem update_hess_analytic (c : VectorConf P VM Jm G Hm)
    (s : VectorState P VM Jm G Hm) {hessf : P → VM → Hm}
    (hh : c.hess = VHessStrategy.analytic hessf) (h : s.H_updated = false) :
    s.update_hess c =
      { s with H := HessVal.matrix (hessf s.x s.v), nhev := s.nhev + 1,
               H_updated := true } := by
  unfold update_hess; simp [h, hh]

/-- `_update_hess` with a stale Hessian cache and a finite-difference
strategy. -/
theorem update_hess_fd (c : VectorConf P VM Jm G Hm)
    (s : VectorState P VM Jm G Hm) {m : FDMethod}
    (hh : c.hess = VHessStrategy.fd m) (h : s.H_updated = false) :
    s.update_hess c =
      { s.update_jac c with
        H := HessVal.matrix
               (c.fdHess m (s.update_jac c).x (s.update_jac c).v
                  (s.update_jac c).J),
        H_updated := true } := by
  unfold update_hess; simp [h, hh]

@[simp] theorem vupdate_hess_x (c : VectorConf P VM Jm G Hm)
    (s : VectorState P VM Jm G Hm) : (s.update_hess c).x = s.x := by
  unfold update_hess; split
  · rfl
  · split
    · simp
    · simp
    · dsimp only; split <;> simp

@[simp] theorem update_hess_v (c : VectorConf P VM Jm G Hm)
    (s : VectorState P VM Jm G Hm) : (s.update_hess c).v = s.v := by
  unfold update_hess; split
  · rfl
  · split
    · simp
    · simp
    · dsimp only; split <;> simp

@[simp] theorem vupdate_hess_H_updated (c : VectorConf P VM Jm G Hm)
    (s : VectorState P VM Jm G Hm) : (s.update_hess c).H_updated = true := by
  unfold update_hess; split
  · assumption
  · split
    · simp
    · simp
    · dsimp only; split <;> simp

@[simp] theorem update_x_of_eq [DecidableEq P] (c : VectorConf P VM Jm G Hm)
    (s : VectorState P VM Jm G Hm) (x : P) (h : x = s.x) :
    s.update_x c x = s := by
  unfold update_x; simp [h]

/-- `_update_x` at a genuinely new point under a non-quasi-Newton Hessian
strategy. -/
theorem vupdate_x_nonqn [DecidableEq P] (c : VectorConf P VM Jm G Hm)
    (s : VectorState P VM Jm G Hm) (x : P) (hx : ¬x = s.x)
    (hh : c.hess.isQN = false) :
    s.update_x c x =
      { s with x := x, f_updated := false, J_updated := false,
               H_updated := false } := by
  unfold update_x
  rw [if_neg hx]
  rcases hch : c.hess with _ | _ | _
  · rfl
  · rfl
  · rw [hch] at hh
    simp [VHessStrategy.isQN] at hh

/-- `_update_x` at a genuinely new point under a quasi-Newton Hessian with a
fresh Jacobian cache: snapshot, move, invalidate, eagerly recompute. -/
theorem vupdate_x_qn [DecidableEq P] (c : VectorConf P VM Jm G Hm)
    (s : VectorState P VM Jm G Hm) (x : P) (hx : ¬x = s.x)
    (hh : c.hess = VHessStrategy.quasiNewton) (hju : s.J_updated = true) :
    s.update_x c x =
      ({ s with x_prev := some s.x, J_prev := some s.J, x := x,
                f_updated := false, J_updated := false,
                H_updated := false } : VectorState P VM Jm G Hm).update_hess c := by
  unfold update_x
  rw [if_neg hx, hh]
  rw [update_jac_of_updated c s hju]

@[simp] theorem vupdate_x_x [DecidableEq P] (c : VectorConf P VM Jm G Hm)
    (s : VectorState P VM Jm G Hm) (x : P) : (s.update_x c x).x = x := by
  unfold update_x; split
  · simp_all
  · split
    · simp
    · rfl

@[simp] theorem update_x_v [DecidableEq P] (c : VectorConf P VM Jm G Hm)
    (s : VectorState P VM Jm G Hm) (x : P) : (s.update_x c x).v = s.v := by
  unfold update_x; split
  · rfl
  · split
    · simp
    · rfl

@[simp] theorem vcall_hess_x [DecidableEq P] [DecidableEq VM]
    (c : VectorConf P VM Jm G Hm) (s : VectorState P VM Jm G Hm) (x : P)
    (v : VM) : ((s.call_hess c x v).1).x = x := by
  unfold call_hess; simp

@[simp] theorem call_hess_v [DecidableEq P] [DecidableEq VM]
    (c : VectorConf P VM Jm G Hm) (s : VectorState P VM Jm G Hm) (x : P)
    (v : VM) : ((s.call_hess c x v).1).v = v := by
  unfold call_hess; simp

@[simp] theorem call_hess_H_updated [DecidableEq P] [DecidableEq VM]
    (c : VectorConf P VM Jm G Hm) (s : VectorState P VM Jm G Hm) (x : P)
    (v : VM) : ((s.call_hess c x v).1).H_updated = true := by
  unfold call_hess; simp

end VectorState

set_option maxHeartbeats 1000000 in
/-- Characterization of a freshly constructed `VectorFunction`: the point is
`x0`, the function and Jacobian caches are fresh and hold the values at
`x0`, the multiplier is the zero vector, the counters reflect exactly the
construction-time evaluations, and the Hessian slot is set according to the
strategy. -/
theorem mkVector_spec {VM Jm : Type} [DecidableEq P] [Inhabited VM]
    [Inhabited Jm] [Inhabited Hm] (c : VectorConf P VM Jm G Hm) (x0 : P)
    (s : VectorState P VM Jm G Hm) (h : mkVector c x0 = Except.ok s) :
    s.x = x0 ∧ s.f = c.fn x0 ∧ s.f_updated = true ∧ s.J_updated = true ∧
      s.J = jacAt c x0 ∧ s.v = c.zeros_like (c.fn x0) ∧ s.H_updated = true ∧
      s.jac_nfev = 0 ∧ s.hess_njev = 0 ∧ 1 ≤ s.nfev ∧
      (∀ jacf, c.jac = JacStrategy.analytic jacf → s.njev = 1 ∧ s.nfev = 1) ∧
      (∀ m, c.jac = JacStrategy.fd m → s.njev = 0 ∧
        s.nfev = 1 + (c.fdJac m x0 (c.fn x0)).2) ∧
      (c.hess = VHessStrategy.quasiNewton →
        s.H = HessVal.updateStrategy [] ∧ s.x_prev = none ∧ s.J_prev = none ∧
          s.nhev = 0) ∧
      (∀ hessf, c.hess = VHessStrategy.analytic hessf →
        s.H = HessVal.matrix (hessf x0 (c.zeros_like (c.fn x0))) ∧
          s.nhev = 1) ∧
      (∀ m, c.hess = VHessStrategy.fd m →
        s.H = HessVal.matrix
            (c.fdHess m x0 (c.zeros_like (c.fn x0)) (jacAt c x0)) ∧
          s.nhev = 0) := by
  unfold mkVector at h
  split at h
  · exact absurd h (by simp)
  · rw [Except.ok.injEq] at h
    subst h
    rcases hj : c.jac with jacf | m <;>
      rcases hh : c.hess with hessf | m2 | _ <;>
        simp [VectorState.update_fun, jacAt, hj, hh]

/-!
## The claims
-/

/-- Claim C3: every attempt to construct a scalar or vector engine whose
gradient/Jacobian strategy is a finite-difference method and whose Hessian
strategy is also a finite-difference method fails with a configuration
error (`ValueError`), and no engine instance is produced. -/
theorem claim_C3 (P V G Hm P2 VM Jm G2 Hm2 : Type) [LinearOrder V]
    [Inhabited V] [Inhabited G] [Inhabited Hm] [DecidableEq P2] [Inhabited VM]
    [Inhabited Jm] [Inhabited Hm2] :
    (∀ (c : ScalarConf P V G Hm) (x0 : P), c.grad.isFD = true →
        c.hess.isFD = true → ∃ e, mkScalar c x0 = Except.error e) ∧
    (∀ (c : VectorConf P2 VM Jm G2 Hm2) (x0 : P2), c.jac.isFD = true →
        c.hess.isFD = true → ∃ e, mkVector c x0 = Except.error e) := by
  constructor
  · intro c x0 h1 h2
    refine ⟨"ValueError: FD gradient requires a quasi-Newton Hessian", ?_⟩
    unfold mkScalar
    rw [h1, h2]
    rfl
  · intro c x0 h1 h2
    refine ⟨"ValueError: FD Jacobian requires a quasi-Newton Hessian", ?_⟩
    unfold mkVector
    rw [h1, h2]
    rfl

/-- Witness for C3: the concrete forbidden configurations are rejected. -/
theorem claim_C3_witness :
    (∃ e, mkScalar exConfFDFD (0 : Int) = Except.error e) ∧
    (∃ e, mkVector exVConfFDFD (0 : Int) = Except.error e) :=
  ⟨(claim_C3 Int Int Int Int Int Int Int Int Int).1 exConfFDFD 0 rfl rfl,
   (claim_C3 Int Int Int Int Int Int Int Int Int).2 exVConfFDFD 0 rfl rfl⟩

/-- Claim C10: construction is eager.  A scalar engine evaluates the
function and the gradient at `x0` during construction (so `_nfev = 1` and
`ngev = 1` immediately), and a callable or finite-difference Hessian is
also evaluated once (`nhev = 1` for a callable; the finite-difference
Hessian is computed and cached, its wrapper counting consumed gradient
evaluations rather than `nhev`).  A vector engine likewise evaluates the
function, the Jacobian, and — for non-quasi-Newton strategies — the
Hessian at construction. -/
theorem claim_C10 (P V G Hm P2 VM Jm G2 Hm2 : Type) [LinearOrder V]
    [Inhabited V] [Inhabited G] [Inhabited Hm] [DecidableEq P2] [Inhabited VM]
    [Inhabited Jm] [Inhabited Hm2] :
    (∀ (c : ScalarConf P V G Hm) (x0 : P) (s : ScalarState P V G Hm),
        mkScalar c x0 = Except.ok s →
          s.f_updated = true ∧ s.f = c.fn x0 ∧ s.g_updated = true ∧
            s.g = gradAt c x0 ∧ s.nfev = 1 ∧ s.grad_ngev = 1 ∧
            (∀ hessf, c.hess = HessStrategy.analytic hessf →
              s.hess_nhev = 1 ∧ s.H = HessVal.matrix (hessf x0)) ∧
            (∀ m, c.hess = HessStrategy.fd m → s.H_updated = true ∧
              s.H = HessVal.matrix (c.fdHess m x0 (gradAt c x0)).1)) ∧
    (∀ (c : VectorConf P2 VM Jm G2 Hm2) (x0 : P2)
        (s : VectorState P2 VM Jm G2 Hm2),
        mkVector c x0 = Except.ok s →
          s.f_updated = true ∧ s.f = c.fn x0 ∧ 1 ≤ s.nfev ∧
            s.J_updated = true ∧ s.J = jacAt c x0 ∧
            (∀ jacf, c.jac = JacStrategy.analytic jacf → s.njev = 1) ∧
            s.H_updated = true ∧
            (∀ hessf, c.hess = VHessStrategy.analytic hessf → s.nhev = 1 ∧
              s.H = HessVal.matrix (hessf x0 (c.zeros_like (c.fn x0)))) ∧
            (∀ m, c.hess = VHessStrategy.fd m →
              s.H = HessVal.matrix
                  (c.fdHess m x0 (c.zeros_like (c.fn x0)) (jacAt c x0)))) := by
  constructor
  · intro c x0 s h
    obtain ⟨_, h2, h3, h4, h5, h6, h7, _, _, h10, _, h12, h13⟩ :=
      mkScalar_spec c x0 s h
    exact ⟨h3, h2, h4, h5, h6, h7,
      fun hessf hh => ⟨(h12 hessf hh).2, (h12 hessf hh).1⟩,
      fun m hm => ⟨h10, (h13 m hm).1⟩⟩
  · intro c x0 s h
    obtain ⟨_, h2, h3, h4, h5, h6, h7, _, _, h10, h11, _, _, h14, h15⟩ :=
      mkVector_spec c x0 s h
    exact ⟨h3, h2, h10, h4, h5, fun jacf hj => (h11 jacf hj).1, h7,
      fun hessf hh => ⟨(h14 hessf hh).2, (h14 hessf hh).1⟩,
      fun m hm => (h15 m hm).1⟩

/-- Witness for C10: eager construction for the concrete analytic scalar
and vector engines at `x0 = 0`. -/
theorem claim_C10_witness :
    (exS0.f_updated = true ∧ exS0.f = exConfAA.fn 0 ∧
      exS0.g_updated = true ∧ exS0.g = gradAt exConfAA 0 ∧ exS0.nfev = 1 ∧
      exS0.grad_ngev = 1 ∧
      (∀ hessf, exConfAA.hess = HessStrategy.analytic hessf →
        exS0.hess_nhev = 1 ∧ exS0.H = HessVal.matrix (hessf 0)) ∧
      (∀ m, exConfAA.hess = HessStrategy.fd m → exS0.H_updated = true ∧
        exS0.H = HessVal.matrix (exConfAA.fdHess m 0 (gradAt exConfAA 0)).1)) ∧
    (exVS0A.f_updated = true ∧ exVS0A.f = exVConfA.fn 0 ∧ 1 ≤ exVS0A.nfev ∧
      exVS0A.J_updated = true ∧ exVS0A.J = jacAt exVConfA 0 ∧
      (∀ jacf, exVConfA.jac = JacStrategy.analytic jacf → exVS0A.njev = 1) ∧
      exVS0A.H_updated = true ∧
      (∀ hessf, exVConfA.hess = VHessStrategy.analytic hessf →
        exVS0A.nhev = 1 ∧
          exVS0A.H = HessVal.matrix
              (hessf 0 (exVConfA.zeros_like (exVConfA.fn 0)))) ∧
      (∀ m, exVConfA.hess = VHessStrategy.fd m →
        exVS0A.H = HessVal.matrix
            (exVConfA.fdHess m 0 (exVConfA.zeros_like (exVConfA.fn 0))
              (jacAt exVConfA 0)))) :=
  ⟨(claim_C10 Int Int Int Int Int Int Int Int Int).1 exConfAA 0 exS0 rfl,
   (claim_C10 Int Int Int Int Int Int Int Int Int).2 exVConfA 0 exVS0A rfl⟩

namespace ScalarState

theorem update_grad_nfev_ge [LinearOrder V] (c : ScalarConf P V G Hm)
    (s : ScalarState P V G Hm) : s.nfev ≤ (s.update_grad c).nfev := by
  unfold update_grad; split
  · exact Nat.le_refl _
  · split
    · simp
    · simp only [update_fun_nfev]
      split <;> omega

/-- The complete effect of `_update_x` at a new point under a quasi-Newton
Hessian: the gradient at the old point is refreshed, `(x_prev, g_prev)` are
snapshotted, the point moves, and the Hessian update object receives exactly
one secant pair built from the gradient freshly computed at the new point
and the snapshotted old gradient. -/
theorem update_x_qn_flow [LinearOrder V] (c : ScalarConf P V G Hm)
    (s : ScalarState P V G Hm) (x : P)
    (hh : c.hess = HessStrategy.quasiNewton) :
    (s.update_x c x).x = x ∧
      (s.update_x c x).g_updated = true ∧
      (s.update_x c x).g = gradAt c x ∧
      (s.update_x c x).x_prev = some s.x ∧
      (s.update_x c x).g_prev = some ((s.update_grad c).g) ∧
      (s.update_x c x).H_updated = true ∧
      (∀ ups, s.H = HessVal.updateStrategy ups →
        (s.update_x c x).H = HessVal.updateStrategy
          (ups ++ [(c.psub x s.x, c.gsub (gradAt c x) ((s.update_grad c).g))])) ∧
      (∀ m, c.grad = GradStrategy.fd m →
        (s.update_x c x).f = c.fn x ∧ (s.update_x c x).f_updated = true ∧
          (s.update_x c x).nfev = (s.update_grad c).nfev + 1) ∧
      (∀ gradf, c.grad = GradStrategy.analytic gradf →
        (s.update_x c x).f_updated = false ∧
          (s.update_x c x).nfev = (s.update_grad c).nfev) := by
  rcases hg : c.grad with gradf | m2 <;> rcases hHs : s.H with Hmat | ups <;>
    simp only [update_x, hh] <;>
    simp [update_hess, update_grad_analytic, update_grad_fd, hh, hg, hHs,
          gradAt, update_fun_f, update_fun_nfev]

end ScalarState

/-- Counterexample to claim C1 as stated: for the engine `exConfAA`
constructed at `0` (construction eagerly cached `f(0)`), two successive
`fun(0)` calls perform zero underlying function evaluations — the total
function-evaluation counter is unchanged — not exactly one. -/
theorem claim_C1_cex :
    mkScalar exConfAA (0 : Int) = Except.ok exS0 ∧
      ((exS0.call_fun exConfAA 0).1.call_fun exConfAA 0).1.nfevT
          = exS0.nfevT ∧
      ¬((exS0.call_fun exConfAA 0).1.call_fun exConfAA 0).1.nfevT
          = exS0.nfevT + 1 :=
  ⟨rfl, by decide, by decide⟩

/-- Claim C1 (amended): for every engine in a coherent state, the second of
two successive `fun(x)` calls is a complete no-op that returns the memoized
value — it does not invoke the user callable and changes no counter — and
the pair of calls performs exactly one direct function evaluation when `x`
differs from the cached point and none when it is the cached point. -/
theorem claim_C1_amended (P V G Hm : Type) [DecidableEq P] [LinearOrder V]
    (c : ScalarConf P V G Hm) (s : ScalarState P V G Hm) (x : P)
    (h : ScalarCallInv c s) :
    ((s.call_fun c x).1).call_fun c x
        = ((s.call_fun c x).1, (s.call_fun c x).2) ∧
      ((s.call_fun c x).1).nfev
        = (if x = s.x then s.nfev else s.nfev + 1) := by
  refine ⟨?_, (ScalarState.call_fun_step c s x h).1⟩
  have h2 := ScalarState.call_fun_cached c (s.call_fun c x).1 x
    (ScalarState.call_fun_x c s x).symm (ScalarState.call_fun_f_updated c s x)
  rw [h2, ScalarState.call_fun_snd]

/-- Witness for the amended C1 at a fresh point of the concrete engine. -/
theorem claim_C1_witness :
    ((exS0.call_fun exConfAA 5).1).call_fun exConfAA 5
        = ((exS0.call_fun exConfAA 5).1, (exS0.call_fun exConfAA 5).2) ∧
      ((exS0.call_fun exConfAA 5).1).nfev
        = (if (5 : Int) = exS0.x then exS0.nfev else exS0.nfev + 1) :=
  claim_C1_amended Int Int Int Int exConfAA exS0 5
    (by unfold ScalarCallInv; decide)

/-- Counterexample to claim C2 as stated: for the engine `exConfAA`
constructed at `0`, the sequence `fun(0)`, `fun(1)`, `fun(0)` performs two
underlying evaluations, not three — the first call is served from the cache
filled at construction. -/
theorem claim_C2_cex :
    mkScalar exConfAA (0 : Int) = Except.ok exS0 ∧
      (((exS0.call_fun exConfAA 0).1.call_fun exConfAA 1).1.call_fun
          exConfAA 0).1.nfevT = exS0.nfevT + 2 ∧
      ¬(((exS0.call_fun exConfAA 0).1.call_fun exConfAA 1).1.call_fun
          exConfAA 0).1.nfevT = exS0.nfevT + 3 :=
  ⟨rfl, by decide, by decide⟩

/-- Claim C2 (amended): for every engine in a coherent state and points with
`x1` different from the engine's cached current point and `x2 ≠ x1`, the
sequence `fun(x1)`, `fun(x2)`, `fun(x1)` performs exactly three direct
function evaluations: moving to `x2` discards the cached value at `x1`, so
returning to `x1` triggers a fresh evaluation (the cache holds only the
current point). -/
theorem claim_C2_amended (P V G Hm : Type) [DecidableEq P] [LinearOrder V]
    (c : ScalarConf P V G Hm) (s : ScalarState P V G Hm) (x1 x2 : P)
    (h : ScalarCallInv c s) (h1 : ¬x1 = s.x) (h2 : ¬x2 = x1) :
    ((((s.call_fun c x1).1.call_fun c x2).1.call_fun c x1).1).nfev
      = s.nfev + 3 := by
  obtain ⟨e1, i1⟩ := ScalarState.call_fun_step c s x1 h
  rw [if_neg h1] at e1
  obtain ⟨e2, i2⟩ := ScalarState.call_fun_step c (s.call_fun c x1).1 x2 i1
  rw [ScalarState.call_fun_x, if_neg h2] at e2
  obtain ⟨e3, _⟩ :=
    ScalarState.call_fun_step c ((s.call_fun c x1).1.call_fun c x2).1 x1 i2
  rw [ScalarState.call_fun_x, if_neg (fun hq => h2 hq.symm)] at e3
  rw [e3, e2, e1]

/-- Witness for the amended C2: three fresh calls on the concrete engine. -/
theorem claim_C2_witness :
    ((((exS0.call_fun exConfAA 1).1.call_fun exConfAA 2).1.call_fun
        exConfAA 1).1).nfev = exS0.nfev + 3 :=
  claim_C2_amended Int Int Int Int exConfAA exS0 1 2
    (by unfold ScalarCallInv; decide) (by decide) (by decide)

/-- Claim C4: for a scalar engine configured with a finite-difference
gradient, a `grad(x)` call at a fresh point first evaluates and caches the
function value at `x` (the differencing base value), and a subsequent
`fun(x)` call at the same `x` is a complete no-op returning that cached
value with no additional underlying function evaluation. -/
theorem claim_C4 (P V G Hm : Type) [DecidableEq P] [LinearOrder V]
    (c : ScalarConf P V G Hm) (s : ScalarState P V G Hm) (x : P)
    (m : FDMethod) (hg : c.grad = GradStrategy.fd m) (hx : ¬x = s.x) :
    ((s.call_grad c x).1).f_updated = true ∧
      ((s.call_grad c x).1).f = c.fn x ∧
      s.nfev < ((s.call_grad c x).1).nfev ∧
      ((s.call_grad c x).1).call_fun c x
        = ((s.call_grad c x).1, c.fn x) := by
  have key : ((s.call_grad c x).1).f_updated = true ∧
      ((s.call_grad c x).1).f = c.fn x ∧
      s.nfev < ((s.call_grad c x).1).nfev ∧
      ((s.call_grad c x).1).x = x := by
    unfold ScalarState.call_grad
    simp only [if_neg hx]
    rcases hh : c.hess with hessf | mh | _
    · rw [ScalarState.update_x_nonqn c s x (by rw [hh]; rfl)]
      rw [ScalarState.update_grad_fd c _ hg rfl]
      refine ⟨by simp, ?_, ?_, by simp⟩
      · rw [ScalarState.update_fun_f]
        simp
      · rw [ScalarState.update_fun_nfev]
        simp
    · rw [ScalarState.update_x_nonqn c s x (by rw [hh]; rfl)]
      rw [ScalarState.update_grad_fd c _ hg rfl]
      refine ⟨by simp, ?_, ?_, by simp⟩
      · rw [ScalarState.update_fun_f]
        simp
      · rw [ScalarState.update_fun_nfev]
        simp
    · obtain ⟨fx, fgu, _, _, _, _, _, ffd, _⟩ :=
        ScalarState.update_x_qn_flow c s x hh
      obtain ⟨ff, ffu, fnf⟩ := ffd m hg
      rw [ScalarState.update_grad_of_updated c _ fgu]
      refine ⟨ffu, ff, ?_, fx⟩
      rw [fnf]
      have := ScalarState.update_grad_nfev_ge c s
      omega
  obtain ⟨k1, k2, k3, k4⟩ := key
  refine ⟨k1, k2, k3, ?_⟩
  rw [ScalarState.call_fun_cached c _ x k4.symm k1, k2]

/-- Witness for C4 on the concrete finite-difference-gradient engine. -/
theorem claim_C4_witness :
    ((exS0FDA.call_grad exConfFDA 7).1).f_updated = true ∧
      ((exS0FDA.call_grad exConfFDA 7).1).f = exConfFDA.fn 7 ∧
      exS0FDA.nfev < ((exS0FDA.call_grad exConfFDA 7).1).nfev ∧
      ((exS0FDA.call_grad exConfFDA 7).1).call_fun exConfFDA 7
        = ((exS0FDA.call_grad exConfFDA 7).1, exConfFDA.fn 7) :=
  claim_C4 Int Int Int Int exConfFDA exS0FDA 7 FDMethod.twoPoint rfl
    (by decide)

/-- Claim C5: for a scalar engine constructed at `x0` with a quasi-Newton
Hessian, the first `hess(x0)` call is a no-op returning the initialized
update object with zero `update` calls; after moving to `x1 ≠ x0`, the next
`hess(x1)` call snapshots `(x_prev, g_prev) = (x0, g(x0))` and feeds
exactly one `update` call with the secant pair
`(x1 - x0, g(x1) - g(x0))`. -/
theorem claim_C5 (P V G Hm : Type) [DecidableEq P] [LinearOrder V]
    [Inhabited V] [Inhabited G] [Inhabited Hm] (c : ScalarConf P V G Hm)
    (x0 x1 : P) (s0 : ScalarState P V G Hm)
    (h : mkScalar c x0 = Except.ok s0)
    (hh : c.hess = HessStrategy.quasiNewton) (hx : ¬x1 = x0) :
    s0.call_hess c x0 = (s0, HessVal.updateStrategy []) ∧
      (((s0.call_hess c x0).1).call_hess c x1).1.x_prev = some x0 ∧
      (((s0.call_hess c x0).1).call_hess c x1).1.g_prev
        = some (gradAt c x0) ∧
      (((s0.call_hess c x0).1).call_hess c x1).2
        = HessVal.updateStrategy
            [(c.psub x1 x0, c.gsub (gradAt c x1) (gradAt c x0))] ∧
      (((s0.call_hess c x0).1).call_hess c x1).1.H
        = HessVal.updateStrategy
            [(c.psub x1 x0, c.gsub (gradAt c x1) (gradAt c x0))] := by
  obtain ⟨sx, _, _, sgu, sg, _, _, _, _, sHu, sqn, _, _⟩ :=
    mkScalar_spec c x0 s0 h
  obtain ⟨sH, _, _, _⟩ := sqn hh
  have hfirst : s0.call_hess c x0 = (s0, HessVal.updateStrategy []) := by
    unfold ScalarState.call_hess
    rw [if_pos sx.symm]
    dsimp only
    rw [ScalarState.update_hess_of_updated c s0 sHu, sH]
  refine ⟨hfirst, ?_⟩
  rw [hfirst]
  obtain ⟨fx, fgu, fg, fxp, fgp, fHu, fH, _, _⟩ :=
    ScalarState.update_x_qn_flow c s0 x1 hh
  have hxne : ¬x1 = s0.x := by rw [sx]; exact hx
  have hsecond : (s0.call_hess c x1).1 = s0.update_x c x1 := by
    unfold ScalarState.call_hess
    rw [if_neg hxne]
    dsimp only
    rw [ScalarState.update_hess_of_updated c _ fHu]
  have hHval : (s0.update_x c x1).H
      = HessVal.updateStrategy
          [(c.psub x1 x0, c.gsub (gradAt c x1) (gradAt c x0))] := by
    rw [fH [] sH, ScalarState.update_grad_of_updated c s0 sgu, sg, sx]
    simp
  refine ⟨?_, ?_, ?_, ?_⟩
  · rw [hsecond, fxp, sx]
  · rw [hsecond, fgp, ScalarState.update_grad_of_updated c s0 sgu, sg]
  · show ((s0.call_hess c x1).1).H = _
    rw [hsecond, hHval]
  · rw [hsecond, hHval]

/-- Witness for C5 on the concrete quasi-Newton engine constructed at `0`
and moved to `1`. -/
theorem claim_C5_witness :
    exS0AQN.call_hess exConfAQN 0 = (exS0AQN, HessVal.updateStrategy []) ∧
      (((exS0AQN.call_hess exConfAQN 0).1).call_hess exConfAQN 1).1.x_prev
        = some 0 ∧
      (((exS0AQN.call_hess exConfAQN 0).1).call_hess exConfAQN 1).1.g_prev
        = some (gradAt exConfAQN 0) ∧
      (((exS0AQN.call_hess exConfAQN 0).1).call_hess exConfAQN 1).2
        = HessVal.updateStrategy
            [(exConfAQN.psub 1 0,
              exConfAQN.gsub (gradAt exConfAQN 1) (gradAt exConfAQN 0))] ∧
      (((exS0AQN.call_hess exConfAQN 0).1).call_hess exConfAQN 1).1.H
        = HessVal.updateStrategy
            [(exConfAQN.psub 1 0,
              exConfAQN.gsub (gradAt exConfAQN 1) (gradAt exConfAQN 0))] :=
  claim_C5 Int Int Int Int exConfAQN 0 1 exS0AQN rfl rfl (by decide)

/-!
## Best-point tracking lemmas
-/

theorem minOf_cons [LinearOrder V] (a : V) (l : List V) :
    minOf (a :: l) =
      some (match minOf l with
            | none => a
            | some b => min a b) := rfl

theorem minOf_append [LinearOrder V] (l1 l2 : List V) :
    minOf (l1 ++ l2) = omin (minOf l1) (minOf l2) := by
  induction l1 with
  | nil => rfl
  | cons a l ih =>
      rw [List.cons_append, minOf_cons, minOf_cons, ih]
      rcases h1 : minOf l with _ | b1 <;> rcases h2 : minOf l2 with _ | b2 <;>
        simp [h1, h2, omin, min_assoc]

theorem minOf_le_of_mem [LinearOrder V] {a : V} {l : List V} (h : a ∈ l) :
    ∃ b, minOf l = some b ∧ b ≤ a := by
  induction l with
  | nil => cases h
  | cons c l ih =>
      rcases List.mem_cons.mp h with hc | hmem
      · subst hc
        rcases hl : minOf l with _ | b
        · exact ⟨a, by rw [minOf_cons, hl], le_refl a⟩
        · exact ⟨min a b, by rw [minOf_cons, hl], min_le_left a b⟩
      · obtain ⟨b, hb, hba⟩ := ih hmem
        exact ⟨min c b, by rw [minOf_cons, hb],
               le_trans (min_le_right c b) hba⟩

theorem minOf_snoc_mem [LinearOrder V] {a : V} {l : List V} (h : a ∈ l) :
    minOf (l ++ [a]) = minOf l := by
  obtain ⟨b, hb, hba⟩ := minOf_le_of_mem h
  rw [minOf_append, hb]
  simp [minOf, omin, min_eq_left hba]

theorem minOf_snoc [LinearOrder V] (a : V) (l : List V) :
    minOf (l ++ [a]) =
      some (match minOf l with
            | none => a
            | some b => min b a) := by
  rw [minOf_append]
  rcases h : minOf l with _ | b <;> simp [minOf, omin]

theorem LowestOk_congr [LinearOrder V] {c : ScalarConf P V G Hm} {W : List P}
    {s s2 : ScalarState P V G Hm} (hx : s2.lowest_x = s.lowest_x)
    (hf : s2.lowest_f = s.lowest_f) (h : LowestOk c W s) : LowestOk c W s2 := by
  obtain ⟨h1, y, hy1, hy2, hy3⟩ := h
  exact ⟨by rw [hf, h1], y, hy1, by rw [hx, hy2], hy3⟩

theorem LowestOk_snoc_mem [LinearOrder V] {c : ScalarConf P V G Hm}
    {W : List P} {s : ScalarState P V G Hm} {z : P} (hz : z ∈ W)
    (h : LowestOk c W s) : LowestOk c (W ++ [z]) s := by
  obtain ⟨h1, y, hy1, hy2, hy3⟩ := h
  have hmin : minOf ((W ++ [z]).map c.fn) = minOf (W.map c.fn) := by
    rw [List.map_append]
    exact minOf_snoc_mem (List.mem_map_of_mem c.fn hz)
  exact ⟨by rw [hmin, h1], y, List.mem_append_left _ hy1, hy2,
         by rw [hmin]; exact hy3⟩

theorem LowestOk_unsnoc_mem [LinearOrder V] {c : ScalarConf P V G Hm}
    {W : List P} {s : ScalarState P V G Hm} {z : P} (hz : z ∈ W)
    (h : LowestOk c (W ++ [z]) s) : LowestOk c W s := by
  obtain ⟨h1, y, hy1, hy2, hy3⟩ := h
  have hmin : minOf ((W ++ [z]).map c.fn) = minOf (W.map c.fn) := by
    rw [List.map_append]
    exact minOf_snoc_mem (List.mem_map_of_mem c.fn hz)
  refine ⟨by rw [← hmin, h1], ?_⟩
  rcases List.mem_append.mp hy1 with hyW | hyz
  · exact ⟨y, hyW, hy2, by rw [← hmin]; exact hy3⟩
  · rw [List.mem_singleton] at hyz
    subst hyz
    exact ⟨y, hz, hy2, by rw [← hmin]; exact hy3⟩

namespace ScalarState

/-- Evaluating the function at the current point extends a correct
best-point tracker over `W` to one over `W ++ [s.x]`. -/
theorem update_fun_eval_lowest [LinearOrder V] (c : ScalarConf P V G Hm)
    (s : ScalarState P V G Hm) {W : List P} (hLO : LowestOk c W s)
    (hf : s.f_updated = false) : LowestOk c (W ++ [s.x]) (s.update_fun c) := by
  obtain ⟨hmin, y, hy1, hy2, hy3⟩ := hLO
  have hsnoc : minOf ((W ++ [s.x]).map c.fn)
      = some (match minOf (W.map c.fn) with
              | none => c.fn s.x
              | some b => min b (c.fn s.x)) := by
    rw [List.map_append]
    exact minOf_snoc (c.fn s.x) (W.map c.fn)
  unfold update_fun
  rw [hf]
  simp only [Bool.false_eq_true, if_false]
  rcases hm : minOf (W.map c.fn) with _ | mn
  · rw [hm] at hmin
    rw [hmin]
    simp only [ltLowest, if_true]
    refine ⟨by rw [hsnoc, hm], s.x, List.mem_append_right _ (by simp),
            by simp, by rw [hsnoc, hm]⟩
  · rw [hm] at hmin
    rw [hmin]
    simp only [ltLowest]
    by_cases hlt : c.fn s.x < mn
    · rw [if_pos (by simpa using hlt)]
      refine ⟨?_, s.x, List.mem_append_right _ (by simp), by simp, ?_⟩
      · rw [hsnoc, hm]
        simp [min_eq_right (le_of_lt hlt)]
      · rw [hsnoc, hm]
        simp [min_eq_right (le_of_lt hlt)]
    · rw [if_neg (by simpa using hlt)]
      have hmn : min mn (c.fn s.x) = mn := min_eq_left (not_lt.mp hlt)
      refine ⟨?_, y, List.mem_append_left _ hy1, hy2, ?_⟩
      · rw [hsnoc, hm]
        dsimp only
        rw [hmn]
      · rw [hsnoc, hm]
        dsimp only
        rw [hmn]
        rw [hm] at hy3
        exact hy3

/-- `_update_fun` keeps the best-point tracker correct when the current
point is already in the evaluated set. -/
theorem update_fun_lowest_mem [LinearOrder V] (c : ScalarConf P V G Hm)
    (s : ScalarState P V G Hm) {W : List P} (hLO : LowestOk c W s)
    (hmem : s.x ∈ W) : LowestOk c W (s.update_fun c) := by
  rcases hf : s.f_updated with _ | _
  · exact LowestOk_unsnoc_mem hmem (update_fun_eval_lowest c s hLO hf)
  · rw [update_fun_of_updated c s hf]
    exact hLO

/-- `_update_grad` keeps the best-point tracker correct when the current
point is already in the evaluated set. -/
theorem update_grad_lowest_mem [LinearOrder V] (c : ScalarConf P V G Hm)
    (s : ScalarState P V G Hm) {W : List P} (hLO : LowestOk c W s)
    (hmem : s.x ∈ W) : LowestOk c W (s.update_grad c) := by
  unfold update_grad
  split
  · exact hLO
  · split
    · exact LowestOk_congr (by simp) (by simp) hLO
    · exact LowestOk_congr (by simp) (by simp)
        (update_fun_lowest_mem c s hLO hmem)

end ScalarState

namespace ScalarState

theorem update_fun_lowest_fields [LinearOrder V] (c : ScalarConf P V G Hm)
    (s : ScalarState P V G Hm) (hf : s.f_updated = false) :
    (s.update_fun c).lowest_x
        = (if ltLowest (c.fn s.x) s.lowest_f then some s.x else s.lowest_x) ∧
      (s.update_fun c).lowest_f
        = (if ltLowest (c.fn s.x) s.lowest_f then some (c.fn s.x)
           else s.lowest_f) := by
  unfold update_fun
  rw [hf]
  simp only [Bool.false_eq_true, if_false]
  split <;> simp_all

/-- The best-point tracker fields after a quasi-Newton `_update_x`: with an
analytic gradient no function evaluation happens, with a finite-difference
gradient the function is evaluated at the new point and compared. -/
theorem update_x_qn_lowest [LinearOrder V] (c : ScalarConf P V G Hm)
    (s : ScalarState P V G Hm) (x : P)
    (hh : c.hess = HessStrategy.quasiNewton) :
    (∀ gradf, c.grad = GradStrategy.analytic gradf →
        (s.update_x c x).lowest_x = (s.update_grad c).lowest_x ∧
          (s.update_x c x).lowest_f = (s.update_grad c).lowest_f) ∧
      (∀ m, c.grad = GradStrategy.fd m →
        (s.update_x c x).lowest_x
            = (if ltLowest (c.fn x) (s.update_grad c).lowest_f then some x
               else (s.update_grad c).lowest_x) ∧
          (s.update_x c x).lowest_f
            = (if ltLowest (c.fn x) (s.update_grad c).lowest_f
               then some (c.fn x) else (s.update_grad c).lowest_f)) := by
  rcases hg : c.grad with gradf | m2 <;> rcases hHs : s.H with Hmat | ups <;>
    by_cases hlt : ltLowest (c.fn x) ((s.update_grad c).lowest_f) = true <;>
    simp only [update_x, hh] <;>
    simp [update_hess, update_grad_analytic, update_grad_fd, hh, hg, hHs,
          update_fun, hlt]

end ScalarState

namespace ScalarState

/-- One public `fun` call extends a correct best-point tracker over the
evaluated points `W` to one over `W ++ [x]`. -/
theorem call_fun_lowest [DecidableEq P] [LinearOrder V]
    (c : ScalarConf P V G Hm) (s : ScalarState P V G Hm) (x : P) {W : List P}
    (hLO : LowestOk c W s) (hmem : s.x ∈ W) :
    LowestOk c (W ++ [x]) ((s.call_fun c x).1) ∧
      ((s.call_fun c x).1).x ∈ W ++ [x] := by
  refine ⟨?_, by rw [call_fun_x]; exact List.mem_append_right _ (by simp)⟩
  unfold call_fun
  by_cases hx : x = s.x
  · rw [if_pos hx]
    subst hx
    dsimp only
    rcases hf : s.f_updated with _ | _
    · exact update_fun_eval_lowest c s hLO hf
    · rw [update_fun_of_updated c s hf]
      exact LowestOk_snoc_mem hmem hLO
  · rw [if_neg hx]
    dsimp only
    rcases hh : c.hess with hessf | mh | _
    · rw [update_x_nonqn c s x (by rw [hh]; rfl)]
      have hLOt : LowestOk c W
          ({ s with x := x, f_updated := false, g_updated := false,
                    H_updated := false } : ScalarState P V G Hm) :=
        LowestOk_congr rfl rfl hLO
      exact update_fun_eval_lowest c _ hLOt rfl
    · rw [update_x_nonqn c s x (by rw [hh]; rfl)]
      have hLOt : LowestOk c W
          ({ s with x := x, f_updated := false, g_updated := false,
                    H_updated := false } : ScalarState P V G Hm) :=
        LowestOk_congr rfl rfl hLO
      exact update_fun_eval_lowest c _ hLOt rfl
    · have hsA : LowestOk c W (s.update_grad c) :=
        update_grad_lowest_mem c s hLO hmem
      obtain ⟨flA, flF⟩ := update_x_qn_lowest c s x hh
      obtain ⟨ux, _, _, _, _, _, _, ffd, fan⟩ := update_x_qn_flow c s x hh
      rcases hg : c.grad with gradf | m
      · obtain ⟨e1, e2⟩ := flA gradf hg
        obtain ⟨ufu, _⟩ := fan gradf hg
        have hLOu : LowestOk c W (s.update_x c x) :=
          LowestOk_congr e1 e2 hsA
        have hres := update_fun_eval_lowest c _ hLOu ufu
        rw [ux] at hres
        exact hres
      · obtain ⟨e1, e2⟩ := flF m hg
        obtain ⟨_, ufu, _⟩ := ffd m hg
        rw [update_fun_of_updated c _ ufu]
        have hLOt2 : LowestOk c W
            ({ s.update_grad c with x := x, f_updated := false }
              : ScalarState P V G Hm) :=
          LowestOk_congr rfl rfl hsA
        have hev := update_fun_eval_lowest c _ hLOt2 rfl
        obtain ⟨q1, q2⟩ := update_fun_lowest_fields c
          ({ s.update_grad c with x := x, f_updated := false }
            : ScalarState P V G Hm) rfl
        exact LowestOk_congr (by rw [e1, q1]) (by rw [e2, q2]) hev

end ScalarState

/-- Running any finite sequence of public `fun` calls preserves and extends
the best-point invariant: after the calls, the tracker is correct for the
extended point list. -/
theorem runFuns_lowest [DecidableEq P] [LinearOrder V]
    (c : ScalarConf P V G Hm) (xs : List P) :
    ∀ (s : ScalarState P V G Hm) (W : List P), LowestOk c W s → s.x ∈ W →
      LowestOk c (W ++ xs) (runFuns c s xs) ∧ (runFuns c s xs).x ∈ W ++ xs := by
  induction xs with
  | nil =>
      intro s W h1 h2
      simpa using ⟨h1, h2⟩
  | cons x xs ih =>
      intro s W h1 h2
      obtain ⟨h1s, h2s⟩ := ScalarState.call_fun_lowest c s x h1 h2
      have := ih ((s.call_fun c x).1) (W ++ [x]) h1s h2s
      rw [List.append_assoc] at this
      simpa using this

/-- Claim C9: for every scalar engine and every finite sequence of `fun`
calls, the tracked best point `(_lowest_x, _lowest_f)` holds the minimum
function value over all points evaluated so far (the construction point and
every requested point), together with an evaluated point attaining it,
regardless of the order of the calls. -/
theorem claim_C9 (P V G Hm : Type) [DecidableEq P] [LinearOrder V]
    [Inhabited V] [Inhabited G] [Inhabited Hm] (c : ScalarConf P V G Hm)
    (x0 : P) (s0 : ScalarState P V G Hm) (h : mkScalar c x0 = Except.ok s0)
    (xs : List P) : LowestOk c (x0 :: xs) (runFuns c s0 xs) := by
  obtain ⟨sx, _, _, _, _, _, _, slx, slf, _⟩ := mkScalar_spec c x0 s0 h
  have h0 : LowestOk c [x0] s0 := by
    refine ⟨?_, x0, by simp, slx, ?_⟩
    · rw [slf]
      rfl
    · rfl
  have := (runFuns_lowest c xs s0 [x0] h0 (by rw [sx]; simp)).1
  simpa using this

/-- Witness for C9: the engine of `exConfAA` (objective `x ^ 2`)
constructed at `0` and evaluated at `2`, `-1`, `1`: the tracker holds the
minimum over all four points. -/
theorem claim_C9_witness :
    LowestOk exConfAA [0, 2, -1, 1] (runFuns exConfAA exS0 [2, -1, 1]) :=
  claim_C9 Int Int Int Int exConfAA 0 exS0 rfl [2, -1, 1]

namespace VectorState

/-- A stale-Hessian refresh under a finite-difference or quasi-Newton
strategy always leaves the Jacobian cache fresh. -/
theorem update_hess_J_updated_fdqn {VM Jm : Type}
    (c : VectorConf P VM Jm G Hm) (s : VectorState P VM Jm G Hm)
    (hq : c.hess.isFD = true ∨ c.hess.isQN = true)
    (hH : s.H_updated = false) : (s.update_hess c).J_updated = true := by
  unfold update_hess
  rw [hH]
  simp only [Bool.false_eq_true, if_false]
  rcases hch : c.hess with hessf | m | _
  · rw [hch] at hq
    simp [VHessStrategy.isFD, VHessStrategy.isQN] at hq
  · simp
  · dsimp only
    split <;> simp

/-- Moving to a genuinely new point under a quasi-Newton Hessian leaves the
Jacobian cache fresh (the eager Hessian update refreshes it). -/
theorem update_x_qn_J_updated [DecidableEq P] {VM Jm : Type}
    (c : VectorConf P VM Jm G Hm) (s : VectorState P VM Jm G Hm) (x : P)
    (hh : c.hess = VHessStrategy.quasiNewton) (hx : ¬x = s.x) :
    (s.update_x c x).J_updated = true := by
  unfold update_x
  rw [if_neg hx, hh]
  dsimp only
  exact update_hess_J_updated_fdqn c _ (Or.inr (by rw [hh]; rfl)) rfl

/-- After any public `hess` call on a coherent state with a
finite-difference or quasi-Newton Hessian, the Jacobian cache is fresh. -/
theorem call_hess_J_updated [DecidableEq P] {VM Jm : Type} [DecidableEq VM]
    (c : VectorConf P VM Jm G Hm) (s : VectorState P VM Jm G Hm) (x : P)
    (v : VM) (hinv : VectorHessInv c s)
    (hq : c.hess.isFD = true ∨ c.hess.isQN = true) :
    ((s.call_hess c x v).1).J_updated = true := by
  unfold call_hess
  dsimp only
  rcases hw : ((s.update_v v).update_x c x).H_updated with _ | _
  · exact update_hess_J_updated_fdqn c _ hq hw
  · rw [vupdate_hess_of_updated c _ hw]
    by_cases hx : x = (s.update_v v).x
    · rw [update_x_of_eq c _ x hx] at hw ⊢
      by_cases hv : v = s.v
      · rw [update_v_eq s v hv] at hw ⊢
        exact hinv hq hw
      · rw [update_v_ne s v hv] at hw
        cases hw
    · rcases hch : c.hess with hessf | m | _
      · rw [hch] at hq
        simp [VHessStrategy.isFD, VHessStrategy.isQN] at hq
      · rw [vupdate_x_nonqn c _ x hx (by rw [hch]; rfl)] at hw
        cases hw
      · exact update_x_qn_J_updated c _ x hch hx

/-- A stale-Hessian refresh under a quasi-Newton strategy with a fresh
Jacobian cache touches only the Hessian slot: every other field, counter
and flag is unchanged. -/
theorem update_hess_qn_frame {VM Jm : Type} (c : VectorConf P VM Jm G Hm)
    (s : VectorState P VM Jm G Hm)
    (hh : c.hess = VHessStrategy.quasiNewton) (hju : s.J_updated = true) :
    (s.update_hess c).x = s.x ∧ (s.update_hess c).v = s.v ∧
      (s.update_hess c).f = s.f ∧ (s.update_hess c).f_updated = s.f_updated ∧
      (s.update_hess c).J = s.J ∧ (s.update_hess c).J_updated = true ∧
      (s.update_hess c).nfev = s.nfev ∧ (s.update_hess c).njev = s.njev ∧
      (s.update_hess c).nhev = s.nhev ∧
      (s.update_hess c).jac_nfev = s.jac_nfev ∧
      (s.update_hess c).hess_njev = s.hess_njev ∧
      (s.update_hess c).H_updated = true := by
  unfold update_hess
  split
  · exact ⟨rfl, rfl, rfl, rfl, rfl, by assumption, rfl, rfl, rfl, rfl, rfl,
           by assumption⟩
  · rw [hh]
    dsimp only
    rw [update_jac_of_updated c s hju]
    split <;> simp [hju]

end VectorState

/-- Claim C6: for every vector engine in a coherent state, changing only
the multiplier between two `hess(x, ·)` calls invalidates only the Hessian:
the second call recomputes the Hessian from the new multiplier but performs
no new function evaluation and no Jacobian recomputation — the cached
function value and Jacobian and all their counters are unchanged. -/
theorem claim_C6 (P VM Jm G Hm : Type) [DecidableEq P] [DecidableEq VM]
    (c : VectorConf P VM Jm G Hm) (s : VectorState P VM Jm G Hm) (x : P)
    (v1 v2 : VM) (hv : ¬v2 = v1) (hinv : VectorHessInv c s) :
    (((s.call_hess c x v1).1.call_hess c x v2).1).nfev
        = ((s.call_hess c x v1).1).nfev ∧
      (((s.call_hess c x v1).1.call_hess c x v2).1).jac_nfev
        = ((s.call_hess c x v1).1).jac_nfev ∧
      (((s.call_hess c x v1).1.call_hess c x v2).1).njev
        = ((s.call_hess c x v1).1).njev ∧
      (((s.call_hess c x v1).1.call_hess c x v2).1).hess_njev
        = ((s.call_hess c x v1).1).hess_njev ∧
      (((s.call_hess c x v1).1.call_hess c x v2).1).f
        = ((s.call_hess c x v1).1).f ∧
      (((s.call_hess c x v1).1.call_hess c x v2).1).f_updated
        = ((s.call_hess c x v1).1).f_updated ∧
      (((s.call_hess c x v1).1.call_hess c x v2).1).J
        = ((s.call_hess c x v1).1).J ∧
      (((s.call_hess c x v1).1.call_hess c x v2).1).J_updated
        = ((s.call_hess c x v1).1).J_updated ∧
      (((s.call_hess c x v1).1.call_hess c x v2).1).v = v2 ∧
      (((s.call_hess c x v1).1.call_hess c x v2).1).H_updated = true ∧
      (∀ hessf, c.hess = VHessStrategy.analytic hessf →
        ((s.call_hess c x v1).1.call_hess c x v2).2
            = HessVal.matrix (hessf x v2) ∧
          (((s.call_hess c x v1).1.call_hess c x v2).1).nhev
            = ((s.call_hess c x v1).1).nhev + 1) ∧
      (∀ m, c.hess = VHessStrategy.fd m →
        ((s.call_hess c x v1).1.call_hess c x v2).2
          = HessVal.matrix (c.fdHess m x v2 ((s.call_hess c x v1).1).J)) := by
  have h1x : ((s.call_hess c x v1).1).x = x :=
    VectorState.vcall_hess_x c s x v1
  have h1v : ((s.call_hess c x v1).1).v = v1 :=
    VectorState.call_hess_v c s x v1
  have hv2 : ¬v2 = ((s.call_hess c x v1).1).v := by rw [h1v]; exact hv
  rw [show ((s.call_hess c x v1).1.call_hess c x v2)
      = ((((s.call_hess c x v1).1.update_v v2).update_x c x).update_hess c,
         ((((s.call_hess c x v1).1.update_v v2).update_x c x).update_hess
            c).H)
      from rfl]
  rw [VectorState.update_v_ne _ v2 hv2]
  rw [VectorState.update_x_of_eq c _ x (by dsimp only; rw [h1x])]
  rcases hch : c.hess with hessf | m | _
  · rw [VectorState.update_hess_analytic c _ hch rfl]
    refine ⟨rfl, rfl, rfl, rfl, rfl, rfl, rfl, rfl, rfl, rfl, ?_, ?_⟩
    · intro hessf2 hh2
      rw [VHessStrategy.analytic.injEq] at hh2
      subst hh2
      exact ⟨by dsimp only; rw [h1x], rfl⟩
    · intro m hm
      exact absurd hm (by simp)
  · have hJu : ((s.call_hess c x v1).1).J_updated = true :=
      VectorState.call_hess_J_updated c s x v1 hinv
        (Or.inl (by rw [hch]; rfl))
    rw [VectorState.update_hess_fd c _ hch rfl]
    rw [VectorState.update_jac_of_updated c _ (by dsimp only; exact hJu)]
    refine ⟨rfl, rfl, rfl, rfl, rfl, rfl, rfl, rfl, rfl,
            rfl, ?_, ?_⟩
    · intro hessf2 hh2
      exact absurd hh2 (by simp)
    · intro m2 hm2
      rw [VHessStrategy.fd.injEq] at hm2
      subst hm2
      exact by dsimp only; rw [h1x]
  · have hJu : ((s.call_hess c x v1).1).J_updated = true :=
      VectorState.call_hess_J_updated c s x v1 hinv
        (Or.inr (by rw [hch]; rfl))
    obtain ⟨k1, k2, k3, k4, k5, k6, k7, k8, k9, k10, k11, k12⟩ :=
      VectorState.update_hess_qn_frame c
        ({ (s.call_hess c x v1).1 with v := v2, H_updated := false }
          : VectorState P VM Jm G Hm) hch (by dsimp only; exact hJu)
    refine ⟨k7, k10, k8, k11, k3, k4, k5, by rw [k6, hJu], by rw [k2], k12,
            ?_, ?_⟩
    · intro hessf2 hh2
      exact absurd hh2 (by simp)
    · intro m2 hm2
      exact absurd hm2 (by simp)

/-- Witness for C6: the concrete analytic vector engine, same point `0`,
multipliers `1` then `2`. -/
theorem claim_C6_witness :
    (((exVS0A.call_hess exVConfA 0 1).1.call_hess exVConfA 0 2).1).nfev
        = ((exVS0A.call_hess exVConfA 0 1).1).nfev ∧
      (((exVS0A.call_hess exVConfA 0 1).1.call_hess exVConfA 0 2).1).jac_nfev
        = ((exVS0A.call_hess exVConfA 0 1).1).jac_nfev ∧
      (((exVS0A.call_hess exVConfA 0 1).1.call_hess exVConfA 0 2).1).njev
        = ((exVS0A.call_hess exVConfA 0 1).1).njev ∧
      (((exVS0A.call_hess exVConfA 0 1).1.call_hess exVConfA 0 2).1).hess_njev
        = ((exVS0A.call_hess exVConfA 0 1).1).hess_njev ∧
      (((exVS0A.call_hess exVConfA 0 1).1.call_hess exVConfA 0 2).1).f
        = ((exVS0A.call_hess exVConfA 0 1).1).f ∧
      (((exVS0A.call_hess exVConfA 0 1).1.call_hess exVConfA 0 2).1).f_updated
        = ((exVS0A.call_hess exVConfA 0 1).1).f_updated ∧
      (((exVS0A.call_hess exVConfA 0 1).1.call_hess exVConfA 0 2).1).J
        = ((exVS0A.call_hess exVConfA 0 1).1).J ∧
      (((exVS0A.call_hess exVConfA 0 1).1.call_hess exVConfA 0 2).1).J_updated
        = ((exVS0A.call_hess exVConfA 0 1).1).J_updated ∧
      (((exVS0A.call_hess exVConfA 0 1).1.call_hess exVConfA 0 2).1).v = 2 ∧
      (((exVS0A.call_hess exVConfA 0 1).1.call_hess exVConfA 0 2).1).H_updated
        = true ∧
      (∀ hessf, exVConfA.hess = VHessStrategy.analytic hessf →
        ((exVS0A.call_hess exVConfA 0 1).1.call_hess exVConfA 0 2).2
            = HessVal.matrix (hessf 0 2) ∧
          (((exVS0A.call_hess exVConfA 0 1).1.call_hess exVConfA 0 2).1).nhev
            = ((exVS0A.call_hess exVConfA 0 1).1).nhev + 1) ∧
      (∀ m, exVConfA.hess = VHessStrategy.fd m →
        ((exVS0A.call_hess exVConfA 0 1).1.call_hess exVConfA 0 2).2
          = HessVal.matrix
              (exVConfA.fdHess m 0 2
                ((exVS0A.call_hess exVConfA 0 1).1).J)) :=
  claim_C6 Int Int Int Int Int exVConfA exVS0A 0 1 2 (by decide)
    (by unfold VectorHessInv; decide)

/-- Claim C7: for a vector engine with a quasi-Newton Hessian, if the very
first `hess` request changes `v` before any change of `x` has ever occurred
(the `(x_prev, J_prev)` snapshot is still unset), no secant update is
applied: the update step is skipped and the initialized object (zero
`update` calls) is returned. -/
theorem claim_C7 (P VM Jm G Hm : Type) [DecidableEq P] [DecidableEq VM]
    [Inhabited VM] [Inhabited Jm] [Inhabited Hm]
    (c : VectorConf P VM Jm G Hm) (x0 : P) (v : VM)
    (s0 : VectorState P VM Jm G Hm) (h : mkVector c x0 = Except.ok s0)
    (hh : c.hess = VHessStrategy.quasiNewton) (hv : ¬v = s0.v) :
    (s0.call_hess c x0 v).2 = HessVal.updateStrategy [] ∧
      (s0.call_hess c x0 v).1.H = HessVal.updateStrategy [] ∧
      (s0.call_hess c x0 v).1.x_prev = none ∧
      (s0.call_hess c x0 v).1.J_prev = none := by
  obtain ⟨sx, _, _, sJu, _, _, _, _, _, _, _, _, sqn, _, _⟩ :=
    mkVector_spec c x0 s0 h
  obtain ⟨sH, sxp, sJp, _⟩ := sqn hh
  rw [show (s0.call_hess c x0 v)
      = (((s0.update_v v).update_x c x0).update_hess c,
         (((s0.update_v v).update_x c x0).update_hess c).H)
      from rfl]
  rw [VectorState.update_v_ne s0 v hv]
  rw [VectorState.update_x_of_eq c _ x0 (by dsimp only; rw [sx])]
  have hkey : (({ s0 with v := v, H_updated := false }
      : VectorState P VM Jm G Hm).update_hess c)
      = { s0 with v := v, H_updated := true } := by
    unfold VectorState.update_hess
    dsimp only
    rw [hh]
    simp only [Bool.false_eq_true, if_false]
    rw [VectorState.update_jac_of_updated c _ (by dsimp only; exact sJu)]
    dsimp only
    rw [sH, sxp]
  rw [hkey]
  exact ⟨by dsimp only; rw [sH], by dsimp only; rw [sH],
         by dsimp only; rw [sxp], by dsimp only; rw [sJp]⟩

/-- Witness for C7: the concrete quasi-Newton vector engine at `0`, first
`hess` request with a fresh multiplier `3`. -/
theorem claim_C7_witness :
    (exVS0QN.call_hess exVConfQN 0 3).2 = HessVal.updateStrategy [] ∧
      (exVS0QN.call_hess exVConfQN 0 3).1.H = HessVal.updateStrategy [] ∧
      (exVS0QN.call_hess exVConfQN 0 3).1.x_prev = none ∧
      (exVS0QN.call_hess exVConfQN 0 3).1.J_prev = none :=
  claim_C7 Int Int Int Int Int exVConfQN 0 3 exVS0QN rfl rfl (by decide)

/-- Claim C8: for every structural (linear) function built from `A` and
every inputs `x` and `v`: `fun(x)` returns `A·x`, `jac(x)` returns `A`
unchanged, and `hess(x, v)` returns the all-zero `n × n` matrix; in
particular for `A = [[1,0],[1,0],[0,1]]` and `x = [3,4]`, `fun` returns
`[3,3,4]`. -/
theorem claim_C8 :
    (∀ (A : List (List ℚ)) (x0 x v : List ℚ),
        ((mkLinear A x0).call_fun x).2 = matvecQ A x ∧
          ((mkLinear A x0).call_jac x).2 = A ∧
          ((mkLinear A x0).call_hess x v).2
            = zeroMatQ (A.headD []).length (A.headD []).length) ∧
      ((mkLinear [[1, 0], [1, 0], [0, 1]] [3, 4]).call_fun [3, 4]).2
        = [3, 3, 4] := by
  constructor
  · intro A x0 x v
    refine ⟨?_, by unfold LinState.call_jac LinState.update_x; split <;> rfl,
            by unfold LinState.call_hess LinState.update_x; split <;> rfl⟩
    unfold LinState.call_fun LinState.update_x
    by_cases hx : x = (mkLinear A x0).x
    · rw [if_pos hx]
      have hfu : (mkLinear A x0).f_updated = true := rfl
      rw [if_pos hfu]
      show matvecQ A x0 = matvecQ A x
      rw [show x = x0 from hx]
    · rw [if_neg hx]
      dsimp only
      rfl
  · show matvecQ [[1, 0], [1, 0], [0, 1]] [3, 4] = [3, 3, 4]
    unfold matvecQ dotQ
    norm_num
